import Mathlib

/-!
Verification of the staged multi-client test harness
(`integration-tests/bats/server_multiclient_test.py` and
`integration-tests/bats/helper/pytest.py`).

The development shallowly embeds the harness: a connection is abstracted as
the response it gives to each statement string; harness functions become
functions returning an `Except` value (a raised Python exception or normal
return) together with the list of statements they issued; the worker /
stage-orchestrator machinery becomes an explicit small-step system driven by
scheduling choices.  Server-side SQL semantics (CAS branch update, merge
conflict tables) are not part of the Python sources and are modelled from the
specification where needed; such definitions carry a doc comment starting
with `Modelled from the spec:`.
-/

namespace Dolt

/-- A Python exception value as the harness observes it: either a plain
`Exception(msg)` raised by harness code (`.ex`), or an error raised by the
database driver and re-raised by `DoltConnection.query` (`.db`). -/
inductive PyErr where
  | ex (msg : String)
  | db (msg : String)
  deriving DecidableEq

instance {ε α : Type} [DecidableEq ε] [DecidableEq α] :
    DecidableEq (Except ε α) := fun x y =>
  match x, y with
  | .ok a, .ok b =>
    if h : a = b then isTrue (congrArg Except.ok h)
    else isFalse (fun hh => h (Except.ok.inj hh))
  | .error a, .error b =>
    if h : a = b then isTrue (congrArg Except.error h)
    else isFalse (fun hh => h (Except.error.inj hh))
  | .ok _, .error _ => isFalse (fun hh => Except.noConfusion hh)
  | .error _, .ok _ => isFalse (fun hh => Except.noConfusion hh)

/-- A result row as `helper/pytest.py` builds it: an ordered field-name to
value map, every value already rendered as a string. -/
abbrev RowMap := List (String × String)

/-- A connection under test, abstracted as the response it gives to each
statement string: row data plus the cursor's affected-row count (an `Int`,
since `cursor.rowcount` may be negative), or a raised database error.  This
embeds `DoltConnection.query` with `exit_on_err=False`. -/
abbrev Conn := String → Except PyErr (List RowMap × Int)

/-- `query(dc, query_str)`: `dc.query(query_str, False)`. -/
def query (dc : Conn) (query_str : String) : Except PyErr (List RowMap × Int) :=
  dc query_str

/-- `query_with_expected_error(dc, non_error_msg, query_str)`: runs the query,
raises `Exception(non_error_msg)` if it succeeded, and then a bare
`except: pass` swallows whatever the try block raised. -/
def query_with_expected_error (dc : Conn) (non_error_msg : String)
    (query_str : String) : Except PyErr Unit :=
  let tried : Except PyErr Unit :=
    match dc query_str with
    | .ok _ => .error (.ex non_error_msg)
    | .error e => .error e
  match tried with
  | .error _ => .ok ()
  | .ok _ => .ok ()

/-- `row(pk, c1, c2)`: the string-valued row map the harness compares query
results against. -/
def row (pk c1 c2 : Int) : RowMap :=
  [("pk", toString pk), ("c1", toString c1), ("c2", toString c2)]

/-- `UPDATE_BRANCH_FAIL_MSG`. -/
def UPDATE_BRANCH_FAIL_MSG : String := "Failed to update branch"

/-- The `expected_hash` string built by the loop at the top of
`commit_and_update_branch`: `"("`, then `"hash = <eh>"` for each expected
hash, separated by `" or "`, then `")"`. -/
def expectedHashClause (expected_hashes : List String) : String :=
  (expected_hashes.foldl
    (fun acc eh =>
      ((acc.1 ++ (if acc.2 = 0 then "" else " or ")) ++ ("hash = " ++ eh),
        acc.2 + 1))
    ("(", 0)).1 ++ ")"

/-- The CAS `UPDATE dolt_branches ...` statement string built by
`commit_and_update_branch`. -/
def updateBranchStmt (commit_message : String) (expected_hashes : List String)
    (branch_name : String) : String :=
  "UPDATE dolt_branches SET hash = Commit(\"-am\", \"" ++ commit_message ++
    "\") WHERE name = \"" ++ branch_name ++ "\" AND " ++
    expectedHashClause expected_hashes

/-- The head-reset statement `SET @@repo1_head=HASHOF("<branch>");` issued at
the end of a successful `commit_and_update_branch` (also the first statement
of several work functions, with branch `main`). -/
def headResetStmt (branch_name : String) : String :=
  "SET @@repo1_head=HASHOF(\"" ++ branch_name ++ "\");"

/-- `commit_and_update_branch(dc, commit_message, expected_hashes,
branch_name)`.  Returns the Python outcome (normal return or raised
exception) together with the list of statements actually sent to the
connection, in order. -/
def commit_and_update_branch (dc : Conn) (commit_message : String)
    (expected_hashes : List String) (branch_name : String) :
    Except PyErr Unit × List String :=
  let query_str := updateBranchStmt commit_message expected_hashes branch_name
  match dc query_str with
  | .error e => (.error e, [query_str])
  | .ok (_, row_count) =>
    if row_count ≠ 1 then
      (.error (.ex UPDATE_BRANCH_FAIL_MSG), [query_str])
    else
      let set_str := headResetStmt branch_name
      match dc set_str with
      | .error e => (.error e, [query_str, set_str])
      | .ok _ => (.ok (), [query_str, set_str])

lemma append_data (a b : String) : (a ++ b).data = a.data ++ b.data := rfl

lemma set_lit_data :
    ("SET @@repo1_head=HASHOF(\"" : String).data
      = 'S' :: ("ET @@repo1_head=HASHOF(\"" : String).data := rfl

lemma upd_lit_data :
    ("UPDATE dolt_branches SET hash = Commit(\"-am\", \"" : String).data
      = 'U' :: ("PDATE dolt_branches SET hash = Commit(\"-am\", \"" : String).data := rfl

/-- The head-reset statement and the CAS update statement are distinct
strings, whatever the message, hashes and branch name are. -/
lemma headResetStmt_ne_updateBranchStmt (cm bn : String) (ehs : List String) :
    headResetStmt bn ≠ updateBranchStmt cm ehs bn := by
  intro h
  have hs : (headResetStmt bn).data.head? = some 'S' := by
    show ((("SET @@repo1_head=HASHOF(\"" : String) ++ bn) ++ "\");").data.head?
        = some 'S'
    rw [append_data, append_data, set_lit_data]
    simp
  have hu : (updateBranchStmt cm ehs bn).data.head? = some 'U' := by
    show (((((("UPDATE dolt_branches SET hash = Commit(\"-am\", \"" : String)
        ++ cm) ++ "\") WHERE name = \"") ++ bn) ++ "\" AND ")
        ++ expectedHashClause ehs).data.head? = some 'U'
    rw [append_data, append_data, append_data, append_data, append_data,
      upd_lit_data]
    simp
  rw [h, hu] at hs
  exact (by decide : ¬ (some 'U' = some 'S')) hs

/-- Claim C1: whenever the CAS `UPDATE` of the branch ref reports an
affected-row count different from 1, `commit_and_update_branch` raises
`Exception("Failed to update branch")`, the head-reset statement is not
executed (the only statement issued is the `UPDATE` itself), and the
rejection propagates to the caller rather than being swallowed. -/
theorem commit_and_update_branch_cas_reject
    (dc : Conn) (cm : String) (ehs : List String) (bn : String)
    (rows : List RowMap) (rc : Int)
    (hq : dc (updateBranchStmt cm ehs bn) = .ok (rows, rc)) (hrc : rc ≠ 1) :
    commit_and_update_branch dc cm ehs bn
        = (.error (.ex UPDATE_BRANCH_FAIL_MSG), [updateBranchStmt cm ehs bn])
      ∧ headResetStmt bn ∉ (commit_and_update_branch dc cm ehs bn).2 := by
  have hrun : commit_and_update_branch dc cm ehs bn
      = (.error (.ex UPDATE_BRANCH_FAIL_MSG), [updateBranchStmt cm ehs bn]) := by
    simp only [commit_and_update_branch]
    rw [hq]
    simp [hrc]
  refine ⟨hrun, ?_⟩
  rw [hrun]
  simp only [List.mem_singleton]
  exact headResetStmt_ne_updateBranchStmt cm bn ehs

/-- A connection whose CAS update always reports zero affected rows. -/
def rejectConn : Conn := fun _ => .ok ([], 0)

/-- Witness for claim C1 at a concrete connection and arguments. -/
theorem commit_and_update_branch_cas_reject_spot :
    commit_and_update_branch rejectConn "m" ["@@repo1_head"] "main"
        = (.error (.ex UPDATE_BRANCH_FAIL_MSG),
            [updateBranchStmt "m" ["@@repo1_head"] "main"])
      ∧ headResetStmt "main"
          ∉ (commit_and_update_branch rejectConn "m" ["@@repo1_head"] "main").2 :=
  commit_and_update_branch_cas_reject rejectConn "m" ["@@repo1_head"] "main"
    [] 0 rfl (by decide)

/-- Claim C10: `query_with_expected_error` never raises to its caller.  When
the query fails, the failure is swallowed by the bare except; when the query
unexpectedly succeeds, the `Exception(non_error_msg)` raised by the try block
is caught by the very same bare except, so the expected-error assertion is
vacuous for every connection and every query. -/
theorem query_with_expected_error_never_raises
    (dc : Conn) (non_error_msg query_str : String) :
    query_with_expected_error dc non_error_msg query_str = .ok () := by
  unfold query_with_expected_error
  cases dc query_str <;> simp

/-! ### `DoltConnection.connect` (helper/pytest.py) -/

/-- Outcome of a `DoltConnection.connect()` call.  `.connected` is a normal
return; `.exitedProc e c` is `_print_err_and_exit`: the error printed on
stderr followed by `sys.exit(c)`; `.raised m` stands for an exception
propagating to the caller (what the spec asserts happens; the code never
produces it). -/
inductive ConnectResult where
  | connected
  | exitedProc (errLine : String) (code : Nat)
  | raised (msg : String)
  deriving DecidableEq

/-- Does a `ConnectResult` represent an exception raised to the caller? -/
def isRaised : ConnectResult → Bool
  | .raised _ => true
  | _ => false

/-- `DoltConnection.connect`, parameterized by the single transport attempt's
outcome (`mysql.connector.connect` returning or raising): on any raised
`BaseException` it calls `_print_err_and_exit(e)`, i.e. prints `e` to stderr
and calls `sys.exit(1)`; there is no retry and no caller-supplied timeout. -/
def connect (transport : Except String Unit) : ConnectResult :=
  match transport with
  | .ok _ => .connected
  | .error e => .exitedProc e 1

/-- Counterexample to claim C9: when the transport is unreachable,
`DoltConnection.connect` does not raise a `ConnectionError` to its caller; it
prints the error and terminates the process (`sys.exit(1)`), so the failure
can never be captured on a Work Item. -/
theorem connect_exits_instead_of_raising :
    connect (.error "unreachable") = .exitedProc "unreachable" 1
      ∧ isRaised (connect (.error "unreachable")) = false := by
  constructor <;> rfl

/-- Claim C9 as amended: on a transport failure `DoltConnection.connect`
prints the error and exits the process with code 1 instead of raising to the
caller; on transport success it returns normally; the single transport
attempt means no implicit retries. -/
theorem connect_behavior (e : String) :
    connect (.error e) = .exitedProc e 1
      ∧ isRaised (connect (.error e)) = false
      ∧ connect (.ok ()) = .connected := by
  refine ⟨rfl, rfl, rfl⟩

/-! ### CAS semantics of the branch update (claim C4)

The server executing the `UPDATE dolt_branches ... WHERE name = ... AND
(hash = ...)` statement is not part of the Python sources; its semantics are
modelled from the spec. -/

/-- Modelled from the spec: the server-side CAS branch update, which is not
in the Python sources.  An atomic update of the ref's hash that is accepted
(affected count 1, hash advanced to the new commit hash) exactly when the
ref's current hash is one of the expected hashes, and otherwise rejected
(affected count 0, hash left unchanged). -/
def casUpdate (refHash : String) (expected : List String) (newHash : String) :
    String × Int :=
  if refHash ∈ expected then (newHash, 1) else (refHash, 0)

/-- Two sessions race to CAS-commit against the same ref currently at `h0`,
both supplying `h0` as the expected hash; `aFirst` selects which atomic
update the server serializes first.  Result: final ref hash, session A's
affected count, session B's affected count. -/
def twoSessionCAS (aFirst : Bool) (h0 hA hB : String) : String × Int × Int :=
  if aFirst then
    let r1 := casUpdate h0 [h0] hA
    let r2 := casUpdate r1.1 [h0] hB
    (r2.1, r1.2, r2.2)
  else
    let r1 := casUpdate h0 [h0] hB
    let r2 := casUpdate r1.1 [h0] hA
    (r2.1, r2.2, r1.2)

/-- A connection that reports a fixed affected-row count for every
statement. -/
def constConn (rc : Int) : Conn := fun _ => .ok ([], rc)

/-- Claim C4: when two sessions concurrently attempt the CAS-commit against
the same ref, both supplying the same pre-commit expected hash `h0`, then
under either serialization exactly one attempt reports affected count 1 and
the other affected count 0; the ref ends at the winner's new hash; and the
harness (`commit_and_update_branch`) turns the loser's count into the raised
`Exception("Failed to update branch")` while the winner's commit proceeds
normally.  Mutual exclusion comes from the CAS predicate alone — the model
contains no lock. -/
theorem cas_mutual_exclusion (h0 hA hB : String)
    (hA0 : hA ≠ h0) (hB0 : hB ≠ h0) (aFirst : Bool)
    (cm bn : String) (ehs : List String) :
    (((twoSessionCAS aFirst h0 hA hB).2.1 = 1
        ∧ (twoSessionCAS aFirst h0 hA hB).2.2 = 0)
      ∨ ((twoSessionCAS aFirst h0 hA hB).2.1 = 0
        ∧ (twoSessionCAS aFirst h0 hA hB).2.2 = 1))
      ∧ (twoSessionCAS aFirst h0 hA hB).1 = (if aFirst then hA else hB)
      ∧ (commit_and_update_branch
          (constConn (min (twoSessionCAS aFirst h0 hA hB).2.1
            (twoSessionCAS aFirst h0 hA hB).2.2)) cm ehs bn).1
          = .error (.ex UPDATE_BRANCH_FAIL_MSG)
      ∧ (commit_and_update_branch
          (constConn (max (twoSessionCAS aFirst h0 hA hB).2.1
            (twoSessionCAS aFirst h0 hA hB).2.2)) cm ehs bn).1
          = .ok () := by
  have h2 : twoSessionCAS aFirst h0 hA hB
      = ((if aFirst then hA else hB), if aFirst then (1, 0) else (0, 1)) := by
    cases aFirst <;>
      simp [twoSessionCAS, casUpdate, hA0, hB0]
  have hlose : ∀ cm bn : String, ∀ ehs : List String,
      (commit_and_update_branch (constConn 0) cm ehs bn).1
        = .error (.ex UPDATE_BRANCH_FAIL_MSG) := by
    intro cm bn ehs
    unfold commit_and_update_branch
    simp [constConn]
  have hwin : ∀ cm bn : String, ∀ ehs : List String,
      (commit_and_update_branch (constConn 1) cm ehs bn).1 = .ok () := by
    intro cm bn ehs
    unfold commit_and_update_branch
    simp [constConn]
  rw [h2]
  cases aFirst <;>
    simp_all [hlose, hwin]

/-- Witness for claim C4 at concrete hashes (first serialization order). -/
theorem cas_mutual_exclusion_spot :
    (((twoSessionCAS true "h0" "h1" "h2").2.1 = 1
        ∧ (twoSessionCAS true "h0" "h1" "h2").2.2 = 0)
      ∨ ((twoSessionCAS true "h0" "h1" "h2").2.1 = 0
        ∧ (twoSessionCAS true "h0" "h1" "h2").2.2 = 1))
      ∧ (twoSessionCAS true "h0" "h1" "h2").1 = (if true then "h1" else "h2")
      ∧ (commit_and_update_branch
          (constConn (min (twoSessionCAS true "h0" "h1" "h2").2.1
            (twoSessionCAS true "h0" "h1" "h2").2.2)) "m" ["x"] "main").1
          = .error (.ex UPDATE_BRANCH_FAIL_MSG)
      ∧ (commit_and_update_branch
          (constConn (max (twoSessionCAS true "h0" "h1" "h2").2.1
            (twoSessionCAS true "h0" "h1" "h2").2.2)) "m" ["x"] "main").1
          = .ok () :=
  cas_mutual_exclusion "h0" "h1" "h2" (by decide) (by decide) true "m" "main" ["x"]

/-! ### The `test` table, `dolt_conflicts_test`, and `resolve_theirs`
(claims C5 and C6)

The three statements issued by `resolve_theirs` are in the Python sources;
the SQL engine that interprets them is not, so the engine's semantics are
modelled from the spec. -/

/-- A row of the `test` table (`pk INT NOT NULL` primary key, nullable `c1`,
`c2`). -/
structure TestRow where
  pk : Int
  c1 : Option Int
  c2 : Option Int
  deriving DecidableEq

/-- A row of `dolt_conflicts_test`, with the base / ours / theirs key columns
and the incoming (their) value columns used by `resolve_theirs`.  A null
`our_pk` means the row was deleted on our side of the merge; a null
`their_pk` means it was deleted on the incoming side. -/
structure ConflictRow where
  base_pk : Option Int
  our_pk : Option Int
  their_pk : Option Int
  their_c1 : Option Int
  their_c2 : Option Int
  deriving DecidableEq

/-- The database state the conflict-resolution statements touch. -/
structure Db where
  test : List TestRow
  conflicts : List ConflictRow
  deriving DecidableEq

/-- Modelled from the spec: the SQL engine (not in the Python sources)
executing `REPLACE INTO test` for one row of a table keyed on `pk`: any
existing row with the same key is deleted, then the new row is inserted. -/
def replaceInto (t : List TestRow) (r : TestRow) : List TestRow :=
  (t.filter (fun x => x.pk != r.pk)) ++ [r]

/-- The contribution of one conflict row to the first `resolve_theirs`
statement: rows whose `their_pk` is non-null are upserted from the incoming
values, the rest are skipped by the `WHERE their_pk IS NOT NULL` filter. -/
def applyConflict (acc : List TestRow) (c : ConflictRow) : List TestRow :=
  match c.their_pk with
  | some p => replaceInto acc ⟨p, c.their_c1, c.their_c2⟩
  | none => acc

/-- Modelled from the spec: the effect on `test` of the first statement of
`resolve_theirs` (`REPLACE INTO test (pk, c1, c2) SELECT their_pk, their_c1,
their_c2 FROM dolt_conflicts_test WHERE their_pk IS NOT NULL`). -/
def replaceStep (t : List TestRow) (cs : List ConflictRow) : List TestRow :=
  cs.foldl applyConflict t

/-- The keys the second statement's subquery selects: `SELECT base_pk FROM
dolt_conflicts_test WHERE their_pk IS NULL` (a null `base_pk` can never
match the `IN`). -/
def deleteTheirNullPks (cs : List ConflictRow) : List Int :=
  cs.filterMap (fun c =>
    match c.their_pk with
    | none => c.base_pk
    | some _ => none)

/-- Modelled from the spec: the effect on `test` of the second statement of
`resolve_theirs` (`DELETE FROM test WHERE pk in (SELECT base_pk FROM
dolt_conflicts_test WHERE their_pk IS NULL)`). -/
def deleteStep (t : List TestRow) (cs : List ConflictRow) : List TestRow :=
  t.filter (fun x => !((deleteTheirNullPks cs).contains x.pk))

/-- Modelled from the spec: the combined effect on the database of the three
statements issued by `resolve_theirs`, in order — upsert of rows with a
non-null incoming value, deletion of rows deleted on the incoming side, and
`DELETE FROM dolt_conflicts_test`. -/
def resolve_theirs_effect (db : Db) : Db :=
  { test := deleteStep (replaceStep db.test db.conflicts) db.conflicts,
    conflicts := [] }

lemma applyConflict_none (acc : List TestRow) (c : ConflictRow)
    (h : c.their_pk = none) : applyConflict acc c = acc := by
  simp [applyConflict, h]

lemma applyConflict_some (acc : List TestRow) (c : ConflictRow) (p : Int)
    (h : c.their_pk = some p) :
    applyConflict acc c = replaceInto acc ⟨p, c.their_c1, c.their_c2⟩ := by
  simp [applyConflict, h]

lemma mem_replaceInto_self (t : List TestRow) (r : TestRow) :
    r ∈ replaceInto t r := by
  simp [replaceInto]

lemma mem_replaceInto_of_ne (t : List TestRow) (r x : TestRow)
    (hx : x ∈ t) (h : x.pk ≠ r.pk) : x ∈ replaceInto t r := by
  simp [replaceInto, List.mem_filter, hx, h]

lemma replaceStep_preserves : ∀ (cs : List ConflictRow) (t : List TestRow)
    (x : TestRow), x ∈ t →
    (∀ c ∈ cs, ∀ p, c.their_pk = some p → p ≠ x.pk) →
    x ∈ replaceStep t cs
  | [], t, x, hx, _ => by simpa [replaceStep] using hx
  | a :: cs, t, x, hx, h => by
    have hstep : x ∈ applyConflict t a := by
      rcases ha : a.their_pk with _ | p
      · rw [applyConflict_none t a ha]; exact hx
      · rw [applyConflict_some t a p ha]
        exact mem_replaceInto_of_ne _ _ _ hx
          (h a (List.mem_cons_self a cs) p ha).symm
    have hrec : x ∈ replaceStep (applyConflict t a) cs :=
      replaceStep_preserves cs (applyConflict t a) x hstep
        (fun c hc => h c (List.mem_cons_of_mem _ hc))
    simpa [replaceStep, List.foldl_cons] using hrec

lemma replaceStep_mem : ∀ (cs : List ConflictRow) (t : List TestRow)
    (c : ConflictRow) (p : Int), c ∈ cs → c.their_pk = some p →
    (cs.filterMap ConflictRow.their_pk).Nodup →
    (⟨p, c.their_c1, c.their_c2⟩ : TestRow) ∈ replaceStep t cs
  | [], _, _, _, hc, _, _ => absurd hc (List.not_mem_nil _)
  | a :: cs, t, c, p, hc, hp, hnd => by
    rcases List.mem_cons.mp hc with rfl | hc'
    · have hstart : (⟨p, c.their_c1, c.their_c2⟩ : TestRow)
          ∈ applyConflict t c := by
        rw [applyConflict_some t c p hp]
        exact mem_replaceInto_self _ _
      have hcons : (c :: cs).filterMap ConflictRow.their_pk
          = p :: cs.filterMap ConflictRow.their_pk := by
        simp [List.filterMap_cons, hp]
      rw [hcons] at hnd
      have hrest : ∀ c' ∈ cs, ∀ p', c'.their_pk = some p' → p' ≠ p := by
        intro c' hc'' p' hp' he
        apply (List.nodup_cons.mp hnd).1
        rw [← he]
        exact List.mem_filterMap.mpr ⟨c', hc'', hp'⟩
      have hrec := replaceStep_preserves cs (applyConflict t c)
        ⟨p, c.their_c1, c.their_c2⟩ hstart hrest
      simpa [replaceStep, List.foldl_cons] using hrec
    · have hnd' : (cs.filterMap ConflictRow.their_pk).Nodup := by
        rcases ha : a.their_pk with _ | q
        · simpa [List.filterMap_cons, ha] using hnd
        · rw [show (a :: cs).filterMap ConflictRow.their_pk
              = q :: cs.filterMap ConflictRow.their_pk from by
            simp [List.filterMap_cons, ha]] at hnd
          exact (List.nodup_cons.mp hnd).2
      have hrec := replaceStep_mem cs (applyConflict t a) c p hc' hp hnd'
      simpa [replaceStep, List.foldl_cons] using hrec

lemma mem_deleteStep (t : List TestRow) (cs : List ConflictRow) (x : TestRow) :
    x ∈ deleteStep t cs ↔ x ∈ t ∧ x.pk ∉ deleteTheirNullPks cs := by
  simp [deleteStep, List.mem_filter]

/-- The conflict state left when a row (pk 5) deleted on our side of the
merge was modified on the incoming side: the row is absent from `test`,
`our_pk` is null, and the incoming values are present. -/
def ourDeletedDb : Db :=
  { test := [],
    conflicts := [{ base_pk := some 5, our_pk := none, their_pk := some 5,
                    their_c1 := some 9, their_c2 := some 9 }] }

/-- Counterexample to claim C5: `resolve_theirs` does not delete every row
deleted on either side of the merge.  Here pk 5 was deleted on our side
(`our_pk` is null in the conflict row), yet after resolution the row is
present in `test`, re-inserted from the incoming values. -/
theorem resolve_theirs_keeps_row_deleted_on_our_side :
    ourDeletedDb.conflicts.map ConflictRow.our_pk = [none]
      ∧ (resolve_theirs_effect ourDeletedDb).test
          = [{ pk := 5, c1 := some 9, c2 := some 9 }]
      ∧ (resolve_theirs_effect ourDeletedDb).conflicts = [] := by
  decide

/-- Claim C5 as amended: `resolve_theirs` implements "prefer incoming,
delete rows deleted on the incoming side".  Provided the conflict rows have
pairwise distinct incoming keys and no incoming-side-deleted row shares its
base key with an upserted incoming key, then: every conflict row with a
non-null incoming value ends up in `test` with the incoming values; every
conflict row with a null incoming value has its base key deleted from
`test`; and the conflict set is empty afterwards.  (A row deleted only on
our side but modified on the incoming side is re-inserted, not deleted.) -/
theorem resolve_theirs_policy (db : Db)
    (hnd : (db.conflicts.filterMap ConflictRow.their_pk).Nodup)
    (hdisj : ∀ c ∈ db.conflicts, c.their_pk = none →
      ∀ c' ∈ db.conflicts, c'.their_pk.isSome → c.base_pk ≠ c'.their_pk) :
    (∀ c ∈ db.conflicts, ∀ p, c.their_pk = some p →
        (⟨p, c.their_c1, c.their_c2⟩ : TestRow)
          ∈ (resolve_theirs_effect db).test)
      ∧ (∀ c ∈ db.conflicts, c.their_pk = none → ∀ p, c.base_pk = some p →
          ∀ r ∈ (resolve_theirs_effect db).test, r.pk ≠ p)
      ∧ (resolve_theirs_effect db).conflicts = [] := by
  refine ⟨?_, ?_, rfl⟩
  · intro c hc p hp
    have h1 : (⟨p, c.their_c1, c.their_c2⟩ : TestRow)
        ∈ replaceStep db.test db.conflicts :=
      replaceStep_mem _ _ c p hc hp hnd
    have h2 : p ∉ deleteTheirNullPks db.conflicts := by
      intro hmem
      rcases List.mem_filterMap.mp hmem with ⟨c0, hc0, hf⟩
      rcases h : c0.their_pk with _ | q
      · rw [h] at hf
        have hf' : c0.base_pk = some p := hf
        have hne := hdisj c0 hc0 h c hc (by rw [hp]; rfl)
        rw [hp, hf'] at hne
        exact hne rfl
      · rw [h] at hf
        have hf' : (none : Option Int) = some p := hf
        exact Option.noConfusion hf'
    exact (mem_deleteStep _ _ _).mpr ⟨h1, h2⟩
  · intro c hc hnone p hbase r hr he
    have hd := (mem_deleteStep _ _ _).mp hr
    apply hd.2
    rw [he]
    refine List.mem_filterMap.mpr ⟨c, hc, ?_⟩
    rw [hnone]
    exact hbase

/-- A concrete conflicted state: pk 0 modified on both sides (incoming value
c1 = 1), pk 7 deleted on the incoming side. -/
def conflictDbSpot : Db :=
  { test := [⟨0, some 2, some 0⟩, ⟨7, some 7, some 7⟩],
    conflicts := [⟨some 0, some 0, some 0, some 1, some 0⟩,
                  ⟨some 7, some 7, none, none, none⟩] }

/-- Witness for claim C5 (amended) at a concrete database state. -/
theorem resolve_theirs_policy_spot :
    (⟨0, some 1, some 0⟩ : TestRow) ∈ (resolve_theirs_effect conflictDbSpot).test
      ∧ (∀ r ∈ (resolve_theirs_effect conflictDbSpot).test, r.pk ≠ 7)
      ∧ (resolve_theirs_effect conflictDbSpot).conflicts = [] := by
  have h := resolve_theirs_policy conflictDbSpot (by decide) (by decide)
  exact ⟨h.1 ⟨some 0, some 0, some 0, some 1, some 0⟩ (by decide) 0 rfl,
    h.2.1 ⟨some 7, some 7, none, none, none⟩ (by decide) rfl 7 rfl,
    h.2.2⟩

/-! ### The merge/resolve scenario functions (claim C6) -/

/-- Sequencing of two harness steps, each a Python outcome together with the
statements it issued: if the first raises, the second never runs. -/
def seqT (a b : Except PyErr Unit × List String) :
    Except PyErr Unit × List String :=
  match a.1 with
  | .error _ => a
  | .ok _ => (b.1, a.2 ++ b.2)

/-- A bare `query(dc, q)` call whose result value is discarded. -/
def queryT (dc : Conn) (q : String) : Except PyErr Unit × List String :=
  match dc q with
  | .error e => (.error e, [q])
  | .ok _ => (.ok (), [q])

/-- The message of the exception `query_and_test_results` raises on a result
mismatch.  The Python format string interpolates the query, `str()` (the
empty string — the source passes `str()` where `str(expected)` was clearly
meant) and `str(results)`; the rendering of the result list is abstracted by
the derived `toString`. -/
def unexpectedMsg (query_str : String) (results : List RowMap) : String :=
  "Unexpected results for query:\n\t" ++ query_str ++ "\nExpected:\n\t"
    ++ "" ++ "\nActual:\n\t" ++ toString results

/-- `query_and_test_results(dc, query_str, expected)`: runs the query and
raises unless the returned rows equal `expected`. -/
def query_and_test_results (dc : Conn) (query_str : String)
    (expected : List RowMap) : Except PyErr Unit × List String :=
  match dc query_str with
  | .error e => (.error e, [query_str])
  | .ok (results, _) =>
    if results ≠ expected then
      (.error (.ex (unexpectedMsg query_str results)), [query_str])
    else
      (.ok (), [query_str])

/-- First statement of `resolve_theirs`. -/
def replaceTheirsStmt : String :=
  "REPLACE INTO test (pk, c1, c2) SELECT their_pk, their_c1, their_c2 FROM dolt_conflicts_test WHERE their_pk IS NOT NULL;"

/-- Second statement of `resolve_theirs` (a Python triple-quoted string; the
embedded newlines and indentation are kept). -/
def deleteTheirsNullStmt : String :=
  "DELETE FROM test WHERE pk in (\n        SELECT base_pk FROM dolt_conflicts_test WHERE their_pk IS NULL\n    );"

/-- Third statement of `resolve_theirs`. -/
def clearConflictsStmt : String := "DELETE FROM dolt_conflicts_test"

/-- `resolve_theirs(dc)`: issues the upsert, the delete and the conflict-set
clear, in order, propagating any raised error. -/
def resolve_theirs (dc : Conn) : Except PyErr Unit × List String :=
  seqT (queryT dc replaceTheirsStmt)
    (seqT (queryT dc deleteTheirsNullStmt) (queryT dc clearConflictsStmt))

/-- `SET @@repo1_head=Merge("main");` — first statement of
`merge_resolve_commit`. -/
def mergeMainStmt : String := "SET @@repo1_head=Merge(\"main\");"

/-- The conflict-set query of `merge_resolve_commit`. -/
def conflictsSelectStmt : String := "SELECT * from dolt_conflicts;"

/-- The conflict-set contents `merge_resolve_commit` asserts. -/
def conflictsExpected : List RowMap := [[("table", "test"), ("num_conflicts", "1")]]

/-- The post-resolution table select of `merge_resolve_commit` (and of
`seed_main`). -/
def selectTestStmt : String := "SELECT pk, c1, c2 FROM test ORDER BY pk"

/-- The post-resolution rows `merge_resolve_commit` asserts:
`[row(0,1,0), row(1,1,1), row(2,2,2)]`. -/
def mergeExpectedRows : List RowMap := [row 0 1 0, row 1 1 1, row 2 2 2]

/-- `merge_resolve_commit(dc)`: merge `main`, assert one conflict on `test`,
resolve preferring the incoming side, assert the resolved table contents,
and CAS-commit against either merge parent. -/
def merge_resolve_commit (dc : Conn) : Except PyErr Unit × List String :=
  seqT (queryT dc mergeMainStmt)
    (seqT (query_and_test_results dc conflictsSelectStmt conflictsExpected)
      (seqT (resolve_theirs dc)
        (seqT (query_and_test_results dc selectTestStmt mergeExpectedRows)
          (commit_and_update_branch dc "resolved conflicts"
            ["HASHOF(\"HEAD^1\")", "HASHOF(\"HEAD^2\")"] "main"))))

/-- The row-0 edit statement of `modify_pk0_on_main_and_commit` — main's H1
edit sets c1 to 1. -/
def updatePk0Stmt : String := "UPDATE test SET c1=1 WHERE pk=0;"

/-- `modify_pk0_on_main_and_commit(dc)`. -/
def modify_pk0_on_main_and_commit (dc : Conn) : Except PyErr Unit × List String :=
  seqT (queryT dc (headResetStmt "main"))
    (seqT (queryT dc updatePk0Stmt)
      (commit_and_update_branch dc "set c1 to 1" ["@@repo1_head"] "main"))

/-- Ordered field lookup in a row map (Python dict indexing). -/
def lookupField : RowMap → String → Option String
  | [], _ => none
  | (k, v) :: rest, f => if k = f then some v else lookupField rest f

lemma seqT_ok_split (a b : Except PyErr Unit × List String)
    (h : (seqT a b).1 = .ok ()) : a.1 = .ok () ∧ b.1 = .ok () := by
  cases ha : a.1 with
  | error e =>
    exfalso
    have hv : (seqT a b).1 = Except.error e := by
      unfold seqT; rw [ha]; exact ha
    rw [hv] at h
    exact Except.noConfusion h
  | ok u =>
    cases u
    have hv : (seqT a b).1 = b.1 := by
      unfold seqT; rw [ha]
    rw [hv] at h
    exact ⟨rfl, h⟩

/-- Claim C6 as amended: in the merge scenario, any run `merge_resolve_commit`
accepts has post-resolution table contents exactly
`[row(0,1,0), row(1,1,1), row(2,2,2)]` — the resolved row 0 carries c1 = "1",
the very value of `main`'s H1 edit (`UPDATE test SET c1=1 WHERE pk=0;`),
because "prefer incoming" adopts `main`'s side; B's own uncommitted edit
(c1 = 2) is what is absent. -/
theorem merge_resolve_success_forces_row0 (dc : Conn) (tr : List String)
    (res : List RowMap) (cnt : Int)
    (hrun : merge_resolve_commit dc = (.ok (), tr))
    (hsel : dc selectTestStmt = .ok (res, cnt)) :
    res = mergeExpectedRows
      ∧ lookupField (row 0 1 0) "c1" = some "1"
      ∧ lookupField (row 0 1 0) "c1" ≠ some "2" := by
  have h1 : (merge_resolve_commit dc).1 = .ok () := by rw [hrun]
  unfold merge_resolve_commit at h1
  have h2 := (seqT_ok_split _ _ h1).2
  have h3 := (seqT_ok_split _ _ h2).2
  have h4 := (seqT_ok_split _ _ h3).2
  have h5 := (seqT_ok_split _ _ h4).1
  unfold query_and_test_results at h5
  rw [hsel] at h5
  by_cases hres : res = mergeExpectedRows
  · exact ⟨hres, by decide, by decide⟩
  · simp [hres] at h5

/-- A connection answering every statement of the merge scenario the way the
harness expects. -/
def goodConn : Conn := fun q =>
  if q = mergeMainStmt then .ok ([], 0)
  else if q = conflictsSelectStmt then .ok (conflictsExpected, 1)
  else if q = replaceTheirsStmt then .ok ([], 1)
  else if q = deleteTheirsNullStmt then .ok ([], 0)
  else if q = clearConflictsStmt then .ok ([], 1)
  else if q = selectTestStmt then .ok (mergeExpectedRows, 3)
  else if q = updateBranchStmt "resolved conflicts"
      ["HASHOF(\"HEAD^1\")", "HASHOF(\"HEAD^2\")"] "main" then .ok ([], 1)
  else if q = headResetStmt "main" then .ok ([], 0)
  else .error (.db "unexpected query")

/-- Witness for claim C6 (amended) at the concrete connection `goodConn`. -/
theorem merge_resolve_success_forces_row0_spot :
    [[("pk", "0"), ("c1", "1"), ("c2", "0")],
     [("pk", "1"), ("c1", "1"), ("c2", "1")],
     [("pk", "2"), ("c1", "2"), ("c2", "2")]] = mergeExpectedRows
      ∧ lookupField (row 0 1 0) "c1" = some "1"
      ∧ lookupField (row 0 1 0) "c1" ≠ some "2" :=
  merge_resolve_success_forces_row0 goodConn (merge_resolve_commit goodConn).2
    _ 3 (by decide) (by decide)

/-- Counterexample to claim C6: the run of `merge_resolve_commit` that the
harness accepts asserts post-resolution row 0 = `row(0,1,0)` whose c1 field
is "1" — exactly the value `main`'s H1 edit wrote (`updatePk0Stmt`, issued
by `modify_pk0_on_main_and_commit`).  So `main`'s H1 edit is present in, not
absent from, the resolved row. -/
theorem merge_resolve_row0_contains_main_edit :
    merge_resolve_commit goodConn
        = (.ok (), [mergeMainStmt, conflictsSelectStmt, replaceTheirsStmt,
            deleteTheirsNullStmt, clearConflictsStmt, selectTestStmt,
            updateBranchStmt "resolved conflicts"
              ["HASHOF(\"HEAD^1\")", "HASHOF(\"HEAD^2\")"] "main",
            headResetStmt "main"])
      ∧ goodConn selectTestStmt = .ok (mergeExpectedRows, 3)
      ∧ mergeExpectedRows.head? = some (row 0 1 0)
      ∧ lookupField (row 0 1 0) "c1" = some (toString (1 : Int))
      ∧ updatePk0Stmt ∈ (modify_pk0_on_main_and_commit (constConn 1)).2 := by
  decide

/-! ### The worker pool and stage orchestrator (claims C2, C3, C7, C8)

The harness spawns `MAX_SIMULTANEOUS_CONNECTIONS = 2` daemon worker threads
running `worker()`, then the main thread loops over `work_item_stages`,
putting each stage's items on `WORK_QUEUE`, blocking on `WORK_QUEUE.join()`,
and checking each item's `exception` field.  This is embedded as a
small-step system: a state for the main thread's position, the queue, the
queue's unfinished-task count, the two workers, the captured exceptions, the
module-global `work_item` variable (the loop variable of the `for work_item
in work_items` loops, which leaks into module scope and is what the worker's
`except` clause actually assigns to), an event trace, and the stdout/stderr
lines.  A scheduling choice selects which thread performs its next atomic
action; a choice whose thread cannot act leaves the state unchanged. -/

/-- Work-item identifier: (stage index, index within the stage). -/
abbrev ItemId := Nat × Nat

/-- One work function of an item, abstracted by its outcome when executed:
`none` = returns normally, `some msg` = raises `Exception(msg)`. -/
abbrev OpSpec := Option String

/-- A test script (`work_item_stages`): stages, each a list of work items,
each item the list of its work functions' outcomes. -/
abbrev Prog := List (List (List OpSpec))

/-- The item ids of stage `i`. -/
def idsOf (P : Prog) (i : Nat) : List ItemId :=
  (List.range (P.getD i []).length).map (fun j => (i, j))

/-- Outcome of the k-th work function of an item: `some none` = it runs and
returns, `some (some msg)` = it runs and raises, `none` = there is no k-th
function (the worker's for-loop is over). -/
def opOutcome (P : Prog) (id : ItemId) (k : Nat) : Option OpSpec :=
  ((P.getD id.1 []).getD id.2 []).get? k

/-- Observable events: an item put on the queue, an item dequeued by a
worker, the k-th work function of an item starting to run, `task_done`, and
the orchestrator's post-barrier check passing an item. -/
inductive Ev where
  | put (id : ItemId)
  | start (id : ItemId)
  | op (id : ItemId) (k : Nat)
  | done (id : ItemId)
  | checked (id : ItemId)
  deriving DecidableEq

/-- The item an event ascribes dispatch or execution to; completion and
check bookkeeping events carry none. -/
def evId : Ev → Option ItemId
  | .put id => some id
  | .start id => some id
  | .op id _ => some id
  | .done _ => none
  | .checked _ => none

/-- A worker thread: idle in `WORK_QUEUE.get()`, executing item `id` with
`k` work functions already finished, or dead (its `except` handler raised a
`NameError` because the global `work_item` was unbound, killing the thread
without `task_done`). -/
inductive WSt where
  | idle
  | busy (id : ItemId) (k : Nat)
  | dead
  deriving DecidableEq

/-- The main thread's position: inside the put loop of the current stage
(with the items still to put), blocked in `WORK_QUEUE.join()`, inside the
check loop (with the items still to check), or the process has exited. -/
inductive MainPh where
  | putting (rem : List ItemId)
  | joining
  | checking (rem : List ItemId)
  | exited (code : Nat)
  deriving DecidableEq

/-- Is the process gone? -/
def MainPh.isExited : MainPh → Bool
  | .exited _ => true
  | _ => false

/-- The whole system state. -/
structure Sys where
  sIdx : Nat
  ph : MainPh
  queue : List ItemId
  unfinished : Nat
  g : Option ItemId
  w1 : WSt
  w2 : WSt
  excs : List (ItemId × String)
  trace : List Ev
  outLines : List String
  errLines : List String
  deriving DecidableEq

/-- Reading an item's `exception` field: assignments prepend, the latest
wins; unassigned fields read as `None`. -/
def excLookup : List (ItemId × String) → ItemId → Option String
  | [], _ => none
  | (a, m) :: rest, id => if a = id then some m else excLookup rest id

/-- The stdout banner `"Running stage %d / %d"`. -/
def banner (stage total : Nat) : String :=
  "Running stage " ++ toString stage ++ " / " ++ toString total

/-- Stage entry: the main loop either enters stage `i` (prints the banner,
begins the put loop) or, past the last stage, the script falls off the end
and the process exits with code 0. -/
def stageEnter (P : Prog) (i : Nat) (s : Sys) : Sys :=
  if i < P.length then
    { s with sIdx := i, ph := .putting (idsOf P i),
             outLines := s.outLines ++ [banner i P.length] }
  else
    { s with sIdx := i, ph := .exited 0 }

/-- The state when the script starts: nothing queued, workers idle, the
global `work_item` unbound, about to enter stage 0. -/
def startSys (P : Prog) : Sys :=
  stageEnter P 0
    { sIdx := 0, ph := .exited 0, queue := [], unfinished := 0, g := none,
      w1 := .idle, w2 := .idle, excs := [], trace := [], outLines := [],
      errLines := [] }

/-- One atomic action of the main thread.  Putting an item first assigns the
loop variable (the module-global `work_item`), then enqueues; `join`
returns only when the unfinished count is zero; the check loop also assigns
the global, and on a captured exception prints it to stderr and exits 1. -/
def mainStep (P : Prog) (s : Sys) : Sys :=
  match s.ph with
  | .putting (id :: rem) =>
    { s with ph := .putting rem, g := some id, queue := s.queue ++ [id],
             unfinished := s.unfinished + 1, trace := s.trace ++ [.put id] }
  | .putting [] => { s with ph := .joining }
  | .joining =>
    if s.unfinished = 0 then { s with ph := .checking (idsOf P s.sIdx) }
    else s
  | .checking (id :: rem) =>
    match excLookup s.excs id with
    | none =>
      { s with ph := .checking rem, g := some id,
               trace := s.trace ++ [.checked id] }
    | some msg =>
      { s with ph := .exited 1, g := some id,
               errLines := s.errLines ++ [msg] }
  | .checking [] => stageEnter P (s.sIdx + 1) s
  | .exited _ => s

/-- The worker selected by a scheduling choice (`false` = first thread). -/
def getW (n : Bool) (s : Sys) : WSt := if n then s.w2 else s.w1

/-- Replace the selected worker's state. -/
def setW (n : Bool) (w : WSt) (s : Sys) : Sys :=
  if n then { s with w2 := w } else { s with w1 := w }

/-- One atomic action of worker `n` while the process is alive: dequeue an
item; run the next work function of the held item (on success advance, on a
raise assign the exception to the *global* `work_item` — not the held item —
then `task_done`; if the global is unbound the handler itself dies); or,
with no function left, `task_done` and go idle. -/
def workBody (P : Prog) (n : Bool) (s : Sys) : Sys :=
  match getW n s with
  | .idle =>
    match s.queue with
    | [] => s
    | id :: q =>
      setW n (.busy id 0)
        { s with queue := q, trace := s.trace ++ [.start id] }
  | .busy id k =>
    match opOutcome P id k with
    | some none =>
      setW n (.busy id (k + 1)) { s with trace := s.trace ++ [.op id k] }
    | some (some msg) =>
      match s.g with
      | some gid =>
        setW n .idle
          { s with excs := (gid, msg) :: s.excs,
                   unfinished := s.unfinished - 1,
                   trace := s.trace ++ [.op id k, .done id] }
      | none => setW n .dead { s with trace := s.trace ++ [.op id k] }
    | none =>
      setW n .idle
        { s with unfinished := s.unfinished - 1,
                 trace := s.trace ++ [.done id] }
  | .dead => s

/-- Worker action, frozen once the process has exited (the worker threads
are daemons: process exit kills them). -/
def workStep (P : Prog) (n : Bool) (s : Sys) : Sys :=
  if s.ph.isExited then s else workBody P n s

/-- A scheduling choice: the next atomic action is the main thread's or one
of the two workers'. -/
inductive Choice where
  | main
  | work (n : Bool)
  deriving DecidableEq

/-- Perform one scheduling choice. -/
def stepC (P : Prog) (c : Choice) (s : Sys) : Sys :=
  match c with
  | .main => mainStep P s
  | .work n => workStep P n s

/-- Run a schedule from a state. -/
def runFrom (P : Prog) (s : Sys) : List Choice → Sys
  | [] => s
  | c :: cs => runFrom P (stepC P c s) cs

/-- Run a schedule from the start state. -/
def runC (P : Prog) (cs : List Choice) : Sys := runFrom P (startSys P) cs

/-- The states some schedule can drive the harness into. -/
def Reachable (P : Prog) (s : Sys) : Prop := ∃ cs, runC P cs = s

@[simp] lemma getW_false (s : Sys) : getW false s = s.w1 := rfl

@[simp] lemma getW_true (s : Sys) : getW true s = s.w2 := rfl

@[simp] lemma setW_false (w : WSt) (s : Sys) :
    setW false w s = { s with w1 := w } := rfl

@[simp] lemma setW_true (w : WSt) (s : Sys) :
    setW true w s = { s with w2 := w } := rfl

/-- Does a worker state tie down one unfinished queue task (a dequeued item
whose `task_done` has not run)? -/
def wOcc : WSt → Nat
  | .idle => 0
  | .busy _ _ => 1
  | .dead => 1

lemma mem_idsOf (P : Prog) (i : Nat) (id : ItemId) :
    id ∈ idsOf P i ↔ id.1 = i ∧ id.2 < (P.getD i []).length := by
  obtain ⟨a, b⟩ := id
  constructor
  · intro h
    rcases List.mem_map.mp h with ⟨j, hj, he⟩
    cases he
    exact ⟨rfl, List.mem_range.mp hj⟩
  · rintro ⟨h1, hb⟩
    cases h1
    exact List.mem_map.mpr ⟨b, List.mem_range.mpr hb, rfl⟩

lemma excLookup_cons (excs : List (ItemId × String)) (a id : ItemId)
    (m : String) :
    excLookup ((a, m) :: excs) id
      = if a = id then some m else excLookup excs id := rfl

/-- Barrier ordering of a trace: whenever a dispatch/execution event for an
item of stage `j` occurs, every item of every earlier stage already has its
completion and its orchestrator check in the strict past of the trace. -/
def BarrierOK (P : Prog) (tr : List Ev) : Prop :=
  ∀ t1 e t2 id, tr = t1 ++ e :: t2 → evId e = some id →
    ∀ i id', i < id.1 → id' ∈ idsOf P i →
      Ev.done id' ∈ t1 ∧ Ev.checked id' ∈ t1

/-- In-order execution of a trace: whenever the k-th work function of an
item runs, every earlier work function of that item already ran — and
returned normally. -/
def OpOrderOK (P : Prog) (tr : List Ev) : Prop :=
  ∀ t1 id k t2, tr = t1 ++ Ev.op id k :: t2 →
    ∀ k', k' < k → Ev.op id k' ∈ t1 ∧ opOutcome P id k' = some none

lemma append_one_cases {α : Type} {tr t1 t2 : List α} {x e : α}
    (h : tr ++ [e] = t1 ++ x :: t2) :
    (t1 = tr ∧ x = e ∧ t2 = [])
      ∨ ∃ t2', t2 = t2' ++ [e] ∧ tr = t1 ++ x :: t2' := by
  rcases List.append_eq_append_iff.mp h with ⟨a', ha1, ha2⟩ | ⟨c', hc1, hc2⟩
  · cases a' with
    | nil =>
      simp only [List.nil_append] at ha2
      obtain ⟨he, ht⟩ := List.cons.inj ha2.symm
      left
      simp only [List.append_nil] at ha1
      exact ⟨ha1, he, ht⟩
    | cons y ys =>
      exfalso
      have hl := congrArg List.length ha2
      simp at hl
  · cases c' with
    | nil =>
      simp only [List.nil_append] at hc2
      obtain ⟨he, ht⟩ := List.cons.inj hc2
      left
      simp only [List.append_nil] at hc1
      exact ⟨hc1.symm, he, ht⟩
    | cons y ys =>
      right
      obtain ⟨hxy, ht⟩ := List.cons.inj hc2
      refine ⟨ys, ht, ?_⟩
      rw [hc1, hxy]

lemma BarrierOK_append (P : Prog) (tr : List Ev) (e : Ev)
    (hb : BarrierOK P tr)
    (he : ∀ id, evId e = some id → ∀ i id', i < id.1 → id' ∈ idsOf P i →
      Ev.done id' ∈ tr ∧ Ev.checked id' ∈ tr) :
    BarrierOK P (tr ++ [e]) := by
  intro t1 e' t2 id h hid i id' hi hmem
  rcases append_one_cases h with ⟨rfl, rfl, rfl⟩ | ⟨t2', _, htr⟩
  · exact he id hid i id' hi hmem
  · exact hb t1 e' t2' id htr hid i id' hi hmem

lemma OpOrderOK_append (P : Prog) (tr : List Ev) (e : Ev)
    (ho : OpOrderOK P tr)
    (he : ∀ id k, e = .op id k → ∀ k', k' < k →
      Ev.op id k' ∈ tr ∧ opOutcome P id k' = some none) :
    OpOrderOK P (tr ++ [e]) := by
  intro t1 id k t2 h k' hk
  rcases append_one_cases h with ⟨rfl, hxe, rfl⟩ | ⟨t2', _, htr⟩
  · exact he id k hxe.symm k' hk
  · exact ho t1 id k t2' htr k' hk

/-- The inductive invariant of the harness system.  It ties the main
thread's phase to the stage index, confines queued and executing items to
the current stage, counts unfinished tasks, records that earlier stages are
done, checked and clean, tracks the global `work_item` binding, and carries
the two trace properties (barrier ordering and in-order execution). -/
structure Inv (P : Prog) (s : Sys) : Prop where
  ph_putting_lt : ∀ rem, s.ph = .putting rem → s.sIdx < P.length
  ph_joining_lt : s.ph = .joining → s.sIdx < P.length
  ph_checking_lt : ∀ rem, s.ph = .checking rem → s.sIdx < P.length
  ph_exited1_lt : s.ph = .exited 1 → s.sIdx < P.length
  ph_exited0 : ∀ c, s.ph = .exited c → (c = 0 ∧ s.sIdx = P.length) ∨ c = 1
  queue_stage : ∀ id ∈ s.queue, id.1 = s.sIdx
  busy_stage : ∀ n id k, getW n s = .busy id k → id.1 = s.sIdx
  count : s.queue.length + wOcc s.w1 + wOcc s.w2 ≤ s.unfinished
  prev_done : ∀ i id, i < s.sIdx → id ∈ idsOf P i →
    Ev.done id ∈ s.trace ∧ Ev.checked id ∈ s.trace
  prev_clean : ∀ i id, i < s.sIdx → id ∈ idsOf P i →
    excLookup s.excs id = none
  g_busy : ∀ n id k, getW n s = .busy id k →
    ∃ gid, s.g = some gid ∧ gid.1 = s.sIdx
  g_queue : s.queue ≠ [] → ∃ gid, s.g = some gid ∧ gid.1 = s.sIdx
  put_rem_sub : ∀ rem, s.ph = .putting rem → ∀ id ∈ rem, id ∈ idsOf P s.sIdx
  put_phase : ∀ rem, s.ph = .putting rem → ∀ id ∈ idsOf P s.sIdx,
    id ∈ rem ∨ Ev.put id ∈ s.trace
  join_put : s.ph = .joining → ∀ id ∈ idsOf P s.sIdx, Ev.put id ∈ s.trace
  lifecycle : ∀ id, Ev.put id ∈ s.trace →
    id ∈ s.queue ∨ (∃ n k, getW n s = .busy id k)
      ∨ (∃ n, getW n s = .dead) ∨ Ev.done id ∈ s.trace
  check_done : ∀ rem, s.ph = .checking rem → ∀ id ∈ idsOf P s.sIdx,
    Ev.done id ∈ s.trace
  check_quiet : ∀ rem, s.ph = .checking rem → s.unfinished = 0
  check_ordered : ∀ rem, s.ph = .checking rem →
    ∃ pre, idsOf P s.sIdx = pre ++ rem
      ∧ ∀ id ∈ pre, excLookup s.excs id = none ∧ Ev.checked id ∈ s.trace
  exit_quiet : ∀ c, s.ph = .exited c → s.unfinished = 0
  err_clean : s.ph ≠ .exited 1 → s.errLines = []
  err_exit1 : s.ph = .exited 1 → ∃ pre id rem msg,
    idsOf P s.sIdx = pre ++ id :: rem
      ∧ (∀ id' ∈ pre, excLookup s.excs id' = none)
      ∧ excLookup s.excs id = some msg ∧ s.errLines = [msg]
  put_stage : ∀ id, Ev.put id ∈ s.trace → id.1 ≤ s.sIdx
  barrier : BarrierOK P s.trace
  op_order : OpOrderOK P s.trace
  busy_prog : ∀ n id k, getW n s = .busy id k →
    ∀ k', k' < k → Ev.op id k' ∈ s.trace ∧ opOutcome P id k' = some none

lemma mainStep_put (P : Prog) (s : Sys) (id : ItemId) (rem : List ItemId)
    (hph : s.ph = .putting (id :: rem)) :
    mainStep P s
      = { s with ph := .putting rem, g := some id,
                 queue := s.queue ++ [id],
                 unfinished := s.unfinished + 1,
                 trace := s.trace ++ [.put id] } := by
  unfold mainStep
  rw [hph]

lemma inv_put (P : Prog) (s : Sys) (id : ItemId) (rem : List ItemId)
    (h : Inv P s) (hph : s.ph = .putting (id :: rem)) :
    Inv P { s with ph := .putting rem, g := some id,
                   queue := s.queue ++ [id],
                   unfinished := s.unfinished + 1,
                   trace := s.trace ++ [.put id] } := by
  have hid : id ∈ idsOf P s.sIdx :=
    h.put_rem_sub _ hph id (List.mem_cons_self _ _)
  have hidst : id.1 = s.sIdx := ((mem_idsOf _ _ _).mp hid).1
  have hlt : s.sIdx < P.length := h.ph_putting_lt _ hph
  refine
    { ph_putting_lt := fun _ _ => hlt
      ph_joining_lt := fun h' => MainPh.noConfusion h'
      ph_checking_lt := fun _ h' => MainPh.noConfusion h'
      ph_exited1_lt := fun h' => MainPh.noConfusion h'
      ph_exited0 := fun _ h' => MainPh.noConfusion h'
      queue_stage := ?_
      busy_stage := fun n id' k hw => h.busy_stage n id' k hw
      count := ?_
      prev_done := fun i id' hi hmem =>
        ⟨List.mem_append_left _ (h.prev_done i id' hi hmem).1,
          List.mem_append_left _ (h.prev_done i id' hi hmem).2⟩
      prev_clean := fun i id' hi hmem => h.prev_clean i id' hi hmem
      g_busy := fun _ _ _ _ => ⟨id, rfl, hidst⟩
      g_queue := fun _ => ⟨id, rfl, hidst⟩
      put_rem_sub := ?_
      put_phase := ?_
      join_put := fun h' => MainPh.noConfusion h'
      lifecycle := ?_
      check_done := fun _ h' => MainPh.noConfusion h'
      check_quiet := fun _ h' => MainPh.noConfusion h'
      check_ordered := fun _ h' => MainPh.noConfusion h'
      exit_quiet := fun _ h' => MainPh.noConfusion h'
      err_clean := fun _ =>
        h.err_clean (by rw [hph]; intro h'; exact MainPh.noConfusion h')
      err_exit1 := fun h' => MainPh.noConfusion h'
      put_stage := ?_
      barrier := ?_
      op_order := ?_
      busy_prog := fun n id' k hw k' hk =>
        ⟨List.mem_append_left _ (h.busy_prog n id' k hw k' hk).1,
          (h.busy_prog n id' k hw k' hk).2⟩ }
  · intro id' hmem
    rcases List.mem_append.mp hmem with hl | hr
    · exact h.queue_stage id' hl
    · rw [List.mem_singleton.mp hr]
      exact hidst
  · simp only [List.length_append, List.length_singleton]
    have := h.count
    omega
  · intro rem' h' id' hmem
    have hr : rem' = rem := (MainPh.putting.inj h').symm
    subst hr
    exact h.put_rem_sub _ hph id' (List.mem_cons_of_mem _ hmem)
  · intro rem' h' id' hmem
    have hr : rem' = rem := (MainPh.putting.inj h').symm
    subst hr
    rcases h.put_phase _ hph id' hmem with hin | hput
    · rcases List.mem_cons.mp hin with heq | hin'
      · right
        rw [heq]
        exact List.mem_append_right _ (List.mem_singleton.mpr rfl)
      · exact Or.inl hin'
    · exact Or.inr (List.mem_append_left _ hput)
  · intro id' hput
    rcases List.mem_append.mp hput with hl | hr
    · rcases h.lifecycle id' hl with hq | hb | hd | hdone
      · exact Or.inl (List.mem_append_left _ hq)
      · exact Or.inr (Or.inl hb)
      · exact Or.inr (Or.inr (Or.inl hd))
      · exact Or.inr (Or.inr (Or.inr (List.mem_append_left _ hdone)))
    · have : id' = id := Ev.put.inj (List.mem_singleton.mp hr)
      rw [this]
      exact Or.inl (List.mem_append_right _ (List.mem_singleton.mpr rfl))
  · intro id' hput
    rcases List.mem_append.mp hput with hl | hr
    · exact h.put_stage id' hl
    · have : id' = id := Ev.put.inj (List.mem_singleton.mp hr)
      rw [this, hidst]
  · refine BarrierOK_append P s.trace _ h.barrier ?_
    intro id' hid' i id'' hi hmem
    have : id' = id := by
      simpa [evId] using hid'.symm
    rw [this, hidst] at hi
    exact h.prev_done i id'' hi hmem
  · refine OpOrderOK_append P s.trace _ h.op_order ?_
    intro id' k h' k' hk
    exact Ev.noConfusion h'

@[simp] lemma setW_sIdx (n : Bool) (w : WSt) (s : Sys) :
    (setW n w s).sIdx = s.sIdx := by cases n <;> rfl

@[simp] lemma setW_ph (n : Bool) (w : WSt) (s : Sys) :
    (setW n w s).ph = s.ph := by cases n <;> rfl

@[simp] lemma setW_queue (n : Bool) (w : WSt) (s : Sys) :
    (setW n w s).queue = s.queue := by cases n <;> rfl

@[simp] lemma setW_unfinished (n : Bool) (w : WSt) (s : Sys) :
    (setW n w s).unfinished = s.unfinished := by cases n <;> rfl

@[simp] lemma setW_g (n : Bool) (w : WSt) (s : Sys) :
    (setW n w s).g = s.g := by cases n <;> rfl

@[simp] lemma setW_excs (n : Bool) (w : WSt) (s : Sys) :
    (setW n w s).excs = s.excs := by cases n <;> rfl

@[simp] lemma setW_trace (n : Bool) (w : WSt) (s : Sys) :
    (setW n w s).trace = s.trace := by cases n <;> rfl

@[simp] lemma setW_outLines (n : Bool) (w : WSt) (s : Sys) :
    (setW n w s).outLines = s.outLines := by cases n <;> rfl

@[simp] lemma setW_errLines (n : Bool) (w : WSt) (s : Sys) :
    (setW n w s).errLines = s.errLines := by cases n <;> rfl

lemma getW_update (n n' : Bool) (w : WSt) (s : Sys) :
    getW n' (setW n w s) = if n' = n then w else getW n' s := by
  cases n <;> cases n' <;> simp [getW, setW]

lemma wOcc_sum_set (n : Bool) (w : WSt) (s : Sys) :
    wOcc (setW n w s).w1 + wOcc (setW n w s).w2 + wOcc (getW n s)
      = wOcc s.w1 + wOcc s.w2 + wOcc w := by
  cases n <;> simp [setW, getW] <;> omega

lemma workBody_get (P : Prog) (s : Sys) (n : Bool) (id : ItemId)
    (q : List ItemId) (hw : getW n s = .idle) (hq : s.queue = id :: q) :
    workBody P n s
      = setW n (.busy id 0)
          { s with queue := q, trace := s.trace ++ [.start id] } := by
  unfold workBody
  rw [hw, hq]

lemma inv_get (P : Prog) (s : Sys) (n : Bool) (id : ItemId) (q : List ItemId)
    (h : Inv P s) (hw : getW n s = .idle) (hq : s.queue = id :: q) :
    Inv P (setW n (.busy id 0)
      { s with queue := q, trace := s.trace ++ [.start id] }) := by
  have hidst : id.1 = s.sIdx :=
    h.queue_stage id (by rw [hq]; exact List.mem_cons_self _ _)
  have hg : ∃ gid, s.g = some gid ∧ gid.1 = s.sIdx :=
    h.g_queue (by rw [hq]; simp)
  constructor
  case ph_putting_lt =>
    intro rem h'
    rw [setW_ph] at h'
    rw [setW_sIdx]
    exact h.ph_putting_lt rem h'
  case ph_joining_lt =>
    intro h'
    rw [setW_ph] at h'
    rw [setW_sIdx]
    exact h.ph_joining_lt h'
  case ph_checking_lt =>
    intro rem h'
    rw [setW_ph] at h'
    rw [setW_sIdx]
    exact h.ph_checking_lt rem h'
  case ph_exited1_lt =>
    intro h'
    rw [setW_ph] at h'
    rw [setW_sIdx]
    exact h.ph_exited1_lt h'
  case ph_exited0 =>
    intro c h'
    rw [setW_ph] at h'
    rw [setW_sIdx]
    exact h.ph_exited0 c h'
  case queue_stage =>
    intro id' hmem
    rw [setW_queue] at hmem
    rw [setW_sIdx]
    exact h.queue_stage id' (by rw [hq]; exact List.mem_cons_of_mem _ hmem)
  case busy_stage =>
    intro n' id' k hw'
    rw [getW_update] at hw'
    rw [setW_sIdx]
    by_cases hn : n' = n
    · rw [if_pos hn] at hw'
      have h1 : id' = id := (WSt.busy.inj hw').1.symm
      rw [h1]
      exact hidst
    · rw [if_neg hn] at hw'
      exact h.busy_stage n' id' k hw'
  case count =>
    have hs := wOcc_sum_set n (WSt.busy id 0) { s with queue := q, trace := s.trace ++ [Ev.start id] }
    have hg2 : getW n { s with queue := q, trace := s.trace ++ [Ev.start id] } = WSt.idle := hw
    rw [hg2] at hs
    have h0 : wOcc WSt.idle = 0 := rfl
    have h1 : wOcc (WSt.busy id 0) = 1 := rfl
    rw [h0, h1] at hs
    dsimp only at hs
    have hc := h.count
    have hql : s.queue.length = q.length + 1 := by rw [hq]; rfl
    simp only [setW_queue, setW_unfinished]
    omega
  case prev_done =>
    intro i id' hi hmem
    rw [setW_sIdx] at hi
    rw [setW_trace]
    exact ⟨List.mem_append_left _ (h.prev_done i id' hi hmem).1,
      List.mem_append_left _ (h.prev_done i id' hi hmem).2⟩
  case prev_clean =>
    intro i id' hi hmem
    rw [setW_sIdx] at hi
    rw [setW_excs]
    exact h.prev_clean i id' hi hmem
  case g_busy =>
    intro n' id' k hw'
    rw [setW_g, setW_sIdx]
    exact hg
  case g_queue =>
    intro _
    rw [setW_g, setW_sIdx]
    exact hg
  case put_rem_sub =>
    intro rem h' id' hmem
    rw [setW_ph] at h'
    rw [setW_sIdx]
    exact h.put_rem_sub rem h' id' hmem
  case put_phase =>
    intro rem h' id' hmem
    rw [setW_ph] at h'
    rw [setW_sIdx] at hmem
    rw [setW_trace]
    rcases h.put_phase rem h' id' hmem with hin | hput
    · exact Or.inl hin
    · exact Or.inr (List.mem_append_left _ hput)
  case join_put =>
    intro h' id' hmem
    rw [setW_ph] at h'
    rw [setW_sIdx] at hmem
    rw [setW_trace]
    exact List.mem_append_left _ (h.join_put h' id' hmem)
  case lifecycle =>
    intro id' hput
    rw [setW_trace] at hput
    rcases List.mem_append.mp hput with hl | hr
    · rcases h.lifecycle id' hl with hqm | ⟨n2, k2, hb⟩ | ⟨n2, hd⟩ | hdone
      · rw [hq] at hqm
        rcases List.mem_cons.mp hqm with heq | htl
        · refine Or.inr (Or.inl ⟨n, 0, ?_⟩)
          rw [getW_update, if_pos rfl, heq]
        · refine Or.inl ?_
          rw [setW_queue]
          exact htl
      · by_cases hn : n2 = n
        · rw [hn, hw] at hb
          exact WSt.noConfusion hb
        · refine Or.inr (Or.inl ⟨n2, k2, ?_⟩)
          rw [getW_update, if_neg hn]
          exact hb
      · by_cases hn : n2 = n
        · rw [hn, hw] at hd
          exact WSt.noConfusion hd
        · refine Or.inr (Or.inr (Or.inl ⟨n2, ?_⟩))
          rw [getW_update, if_neg hn]
          exact hd
      · exact Or.inr (Or.inr (Or.inr (by
          rw [setW_trace]
          exact List.mem_append_left _ hdone)))
    · exact absurd (List.mem_singleton.mp hr) (fun hc => Ev.noConfusion hc)
  case check_done =>
    intro rem h' id' hmem
    rw [setW_ph] at h'
    rw [setW_sIdx] at hmem
    rw [setW_trace]
    exact List.mem_append_left _ (h.check_done rem h' id' hmem)
  case check_quiet =>
    intro rem h'
    rw [setW_ph] at h'
    rw [setW_unfinished]
    exact h.check_quiet rem h'
  case check_ordered =>
    intro rem h'
    rw [setW_ph] at h'
    rw [setW_sIdx, setW_excs, setW_trace]
    rcases h.check_ordered rem h' with ⟨pre, hsplit, hpre⟩
    exact ⟨pre, hsplit, fun id' hm =>
      ⟨(hpre id' hm).1, List.mem_append_left _ (hpre id' hm).2⟩⟩
  case exit_quiet =>
    intro c h'
    rw [setW_ph] at h'
    rw [setW_unfinished]
    exact h.exit_quiet c h'
  case err_clean =>
    intro h'
    rw [setW_ph] at h'
    rw [setW_errLines]
    exact h.err_clean h'
  case err_exit1 =>
    intro h'
    rw [setW_ph] at h'
    rw [setW_sIdx, setW_excs, setW_errLines]
    exact h.err_exit1 h'
  case put_stage =>
    intro id' hput
    rw [setW_trace] at hput
    rw [setW_sIdx]
    rcases List.mem_append.mp hput with hl | hr
    · exact h.put_stage id' hl
    · exact absurd (List.mem_singleton.mp hr) (by intro hc; exact Ev.noConfusion hc)
  case barrier =>
    rw [setW_trace]
    refine BarrierOK_append P s.trace _ h.barrier ?_
    intro id' hid' i id'' hi hmem
    have heq : id' = id := by simpa [evId] using hid'.symm
    rw [heq, hidst] at hi
    exact h.prev_done i id'' hi hmem
  case op_order =>
    rw [setW_trace]
    refine OpOrderOK_append P s.trace _ h.op_order ?_
    intro id' k h' k' hk
    exact Ev.noConfusion h'
  case busy_prog =>
    intro n' id' k hw' k' hk
    rw [getW_update] at hw'
    rw [setW_trace]
    by_cases hn : n' = n
    · rw [if_pos hn] at hw'
      have hk0 : k = 0 := (WSt.busy.inj hw').2.symm
      rw [hk0] at hk
      exact absurd hk (Nat.not_lt_zero k')
    · rw [if_neg hn] at hw'
      exact ⟨List.mem_append_left _ (h.busy_prog n' id' k hw' k' hk).1,
        (h.busy_prog n' id' k hw' k' hk).2⟩

lemma wOcc_zero (w : WSt) (h : wOcc w = 0) : w = .idle := by
  cases w
  · rfl
  · exact absurd h (by simp [wOcc])
  · exact absurd h (by simp [wOcc])

lemma busy_occ (n : Bool) (s : Sys) (id : ItemId) (k : Nat)
    (hw : getW n s = .busy id k) : 1 ≤ wOcc s.w1 + wOcc s.w2 := by
  cases n
  · rw [getW_false] at hw
    rw [hw]
    simp [wOcc]
  · rw [getW_true] at hw
    rw [hw]
    simp [wOcc]

/-- A worker holding an item rules out the orchestrator being past the
barrier of the current stage (checking or exited): the unfinished count
would have to be zero. -/
lemma busy_quiet_contra (P : Prog) (s : Sys) (n : Bool) (id : ItemId)
    (k : Nat) (h : Inv P s) (hw : getW n s = .busy id k)
    (hz : s.unfinished = 0) : False := by
  have hocc := busy_occ n s id k hw
  have hc := h.count
  omega

lemma BarrierOK_nil (P : Prog) : BarrierOK P [] := by
  intro t1 e t2 id hh
  exfalso
  have := congrArg List.length hh
  simp at this
  omega

lemma OpOrderOK_nil (P : Prog) : OpOrderOK P [] := by
  intro t1 id k t2 hh
  exfalso
  have := congrArg List.length hh
  simp at this
  omega

lemma mainStep_put_nil (P : Prog) (s : Sys) (hph : s.ph = .putting []) :
    mainStep P s = { s with ph := .joining } := by
  unfold mainStep
  rw [hph]

lemma mainStep_joining (P : Prog) (s : Sys) (hph : s.ph = .joining) :
    mainStep P s
      = if s.unfinished = 0 then { s with ph := .checking (idsOf P s.sIdx) }
        else s := by
  unfold mainStep
  rw [hph]

lemma mainStep_check_ok (P : Prog) (s : Sys) (id : ItemId)
    (rem : List ItemId) (hph : s.ph = .checking (id :: rem))
    (hexc : excLookup s.excs id = none) :
    mainStep P s
      = { s with ph := .checking rem, g := some id,
                 trace := s.trace ++ [.checked id] } := by
  unfold mainStep
  rw [hph]
  dsimp only
  rw [hexc]

lemma mainStep_check_fail (P : Prog) (s : Sys) (id : ItemId)
    (rem : List ItemId) (msg : String) (hph : s.ph = .checking (id :: rem))
    (hexc : excLookup s.excs id = some msg) :
    mainStep P s
      = { s with ph := .exited 1, g := some id,
                 errLines := s.errLines ++ [msg] } := by
  unfold mainStep
  rw [hph]
  dsimp only
  rw [hexc]

lemma mainStep_next (P : Prog) (s : Sys) (hph : s.ph = .checking []) :
    mainStep P s = stageEnter P (s.sIdx + 1) s := by
  unfold mainStep
  rw [hph]

lemma mainStep_exited (P : Prog) (s : Sys) (code : Nat)
    (hph : s.ph = .exited code) : mainStep P s = s := by
  unfold mainStep
  rw [hph]

lemma workBody_idle_nil (P : Prog) (s : Sys) (n : Bool)
    (hw : getW n s = .idle) (hq : s.queue = []) : workBody P n s = s := by
  unfold workBody
  rw [hw]
  dsimp only
  rw [hq]

lemma workBody_op_ok (P : Prog) (s : Sys) (n : Bool) (id : ItemId) (k : Nat)
    (hw : getW n s = .busy id k) (ho : opOutcome P id k = some none) :
    workBody P n s
      = setW n (.busy id (k + 1)) { s with trace := s.trace ++ [.op id k] } := by
  unfold workBody
  rw [hw]
  dsimp only
  rw [ho]

lemma workBody_raise (P : Prog) (s : Sys) (n : Bool) (id : ItemId) (k : Nat)
    (msg : String) (gid : ItemId) (hw : getW n s = .busy id k)
    (ho : opOutcome P id k = some (some msg)) (hg : s.g = some gid) :
    workBody P n s
      = setW n .idle
          { s with excs := (gid, msg) :: s.excs,
                   unfinished := s.unfinished - 1,
                   trace := s.trace ++ [.op id k, .done id] } := by
  unfold workBody
  rw [hw]
  dsimp only
  rw [ho]
  dsimp only
  rw [hg]

lemma workBody_fin (P : Prog) (s : Sys) (n : Bool) (id : ItemId) (k : Nat)
    (hw : getW n s = .busy id k) (ho : opOutcome P id k = none) :
    workBody P n s
      = setW n .idle
          { s with unfinished := s.unfinished - 1,
                   trace := s.trace ++ [.done id] } := by
  unfold workBody
  rw [hw]
  dsimp only
  rw [ho]

lemma workBody_dead (P : Prog) (s : Sys) (n : Bool)
    (hw : getW n s = .dead) : workBody P n s = s := by
  unfold workBody
  rw [hw]

lemma inv_op_ok (P : Prog) (s : Sys) (n : Bool) (id : ItemId) (k : Nat)
    (h : Inv P s) (hw : getW n s = .busy id k)
    (ho : opOutcome P id k = some none) :
    Inv P (setW n (.busy id (k + 1))
      { s with trace := s.trace ++ [.op id k] }) := by
  have hidst : id.1 = s.sIdx := h.busy_stage n id k hw
  have hprog := h.busy_prog n id k hw
  have hgb := h.g_busy n id k hw
  constructor
  case ph_putting_lt =>
    intro rem h'
    rw [setW_ph] at h'
    rw [setW_sIdx]
    exact h.ph_putting_lt rem h'
  case ph_joining_lt =>
    intro h'
    rw [setW_ph] at h'
    rw [setW_sIdx]
    exact h.ph_joining_lt h'
  case ph_checking_lt =>
    intro rem h'
    rw [setW_ph] at h'
    rw [setW_sIdx]
    exact h.ph_checking_lt rem h'
  case ph_exited1_lt =>
    intro h'
    rw [setW_ph] at h'
    rw [setW_sIdx]
    exact h.ph_exited1_lt h'
  case ph_exited0 =>
    intro c h'
    rw [setW_ph] at h'
    rw [setW_sIdx]
    exact h.ph_exited0 c h'
  case queue_stage =>
    intro id' hmem
    rw [setW_queue] at hmem
    rw [setW_sIdx]
    exact h.queue_stage id' hmem
  case busy_stage =>
    intro n' id' k' hw'
    rw [getW_update] at hw'
    rw [setW_sIdx]
    by_cases hn : n' = n
    · rw [if_pos hn] at hw'
      have h1 : id' = id := (WSt.busy.inj hw').1.symm
      rw [h1]
      exact hidst
    · rw [if_neg hn] at hw'
      exact h.busy_stage n' id' k' hw'
  case count =>
    have hs := wOcc_sum_set n (WSt.busy id (k + 1)) { s with trace := s.trace ++ [Ev.op id k] }
    have hg2 : getW n { s with trace := s.trace ++ [Ev.op id k] } = WSt.busy id k := hw
    rw [hg2] at hs
    have h1 : wOcc (WSt.busy id k) = 1 := rfl
    have h2 : wOcc (WSt.busy id (k + 1)) = 1 := rfl
    rw [h1, h2] at hs
    dsimp only at hs
    have hc := h.count
    simp only [setW_queue, setW_unfinished]
    omega
  case prev_done =>
    intro i id' hi hmem
    rw [setW_sIdx] at hi
    rw [setW_trace]
    exact ⟨List.mem_append_left _ (h.prev_done i id' hi hmem).1,
      List.mem_append_left _ (h.prev_done i id' hi hmem).2⟩
  case prev_clean =>
    intro i id' hi hmem
    rw [setW_sIdx] at hi
    rw [setW_excs]
    exact h.prev_clean i id' hi hmem
  case g_busy =>
    intro n' id' k' hw'
    rw [setW_g, setW_sIdx]
    exact hgb
  case g_queue =>
    intro hne
    rw [setW_queue] at hne
    rw [setW_g, setW_sIdx]
    exact h.g_queue hne
  case put_rem_sub =>
    intro rem h' id' hmem
    rw [setW_ph] at h'
    rw [setW_sIdx]
    exact h.put_rem_sub rem h' id' hmem
  case put_phase =>
    intro rem h' id' hmem
    rw [setW_ph] at h'
    rw [setW_sIdx] at hmem
    rw [setW_trace]
    rcases h.put_phase rem h' id' hmem with hin | hput
    · exact Or.inl hin
    · exact Or.inr (List.mem_append_left _ hput)
  case join_put =>
    intro h' id' hmem
    rw [setW_ph] at h'
    rw [setW_sIdx] at hmem
    rw [setW_trace]
    exact List.mem_append_left _ (h.join_put h' id' hmem)
  case lifecycle =>
    intro id' hput
    rw [setW_trace] at hput
    rcases List.mem_append.mp hput with hl | hr
    · rcases h.lifecycle id' hl with hqm | ⟨n2, k2, hb⟩ | ⟨n2, hd⟩ | hdone
      · left
        rw [setW_queue]
        exact hqm
      · by_cases hn : n2 = n
        · rw [hn, hw] at hb
          have h1 : id' = id := (WSt.busy.inj hb).1.symm
          refine Or.inr (Or.inl ⟨n, k + 1, ?_⟩)
          rw [getW_update, if_pos rfl, h1]
        · refine Or.inr (Or.inl ⟨n2, k2, ?_⟩)
          rw [getW_update, if_neg hn]
          exact hb
      · by_cases hn : n2 = n
        · rw [hn, hw] at hd
          exact WSt.noConfusion hd
        · refine Or.inr (Or.inr (Or.inl ⟨n2, ?_⟩))
          rw [getW_update, if_neg hn]
          exact hd
      · exact Or.inr (Or.inr (Or.inr (by
          rw [setW_trace]
          exact List.mem_append_left _ hdone)))
    · exact absurd (List.mem_singleton.mp hr) (fun hc => Ev.noConfusion hc)
  case check_done =>
    intro rem h' id' hmem
    rw [setW_ph] at h'
    rw [setW_sIdx] at hmem
    rw [setW_trace]
    exact List.mem_append_left _ (h.check_done rem h' id' hmem)
  case check_quiet =>
    intro rem h'
    rw [setW_ph] at h'
    rw [setW_unfinished]
    exact h.check_quiet rem h'
  case check_ordered =>
    intro rem h'
    rw [setW_ph] at h'
    rw [setW_sIdx, setW_excs, setW_trace]
    rcases h.check_ordered rem h' with ⟨pre, hsplit, hpre⟩
    exact ⟨pre, hsplit, fun id' hm =>
      ⟨(hpre id' hm).1, List.mem_append_left _ (hpre id' hm).2⟩⟩
  case exit_quiet =>
    intro c h'
    rw [setW_ph] at h'
    rw [setW_unfinished]
    exact h.exit_quiet c h'
  case err_clean =>
    intro h'
    rw [setW_ph] at h'
    rw [setW_errLines]
    exact h.err_clean h'
  case err_exit1 =>
    intro h'
    rw [setW_ph] at h'
    rw [setW_sIdx, setW_excs, setW_errLines]
    exact h.err_exit1 h'
  case put_stage =>
    intro id' hput
    rw [setW_trace] at hput
    rw [setW_sIdx]
    rcases List.mem_append.mp hput with hl | hr
    · exact h.put_stage id' hl
    · exact absurd (List.mem_singleton.mp hr) (fun hc => Ev.noConfusion hc)
  case barrier =>
    rw [setW_trace]
    refine BarrierOK_append P s.trace _ h.barrier ?_
    intro id' hid' i id'' hi hmem
    have heq : id' = id := by simpa [evId] using hid'.symm
    rw [heq, hidst] at hi
    exact h.prev_done i id'' hi hmem
  case op_order =>
    rw [setW_trace]
    refine OpOrderOK_append P s.trace _ h.op_order ?_
    intro id' k'' h' k' hk
    have h1 : id = id' := (Ev.op.inj h').1
    have h2 : k = k'' := (Ev.op.inj h').2
    rw [← h1]
    rw [← h2] at hk
    exact hprog k' hk
  case busy_prog =>
    intro n' id' k' hw' k2 hk2
    rw [getW_update] at hw'
    rw [setW_trace]
    by_cases hn : n' = n
    · rw [if_pos hn] at hw'
      have h1 : id' = id := (WSt.busy.inj hw').1.symm
      have h2 : k' = k + 1 := (WSt.busy.inj hw').2.symm
      rw [h1]
      rw [h2] at hk2
      rcases Nat.lt_succ_iff_lt_or_eq.mp hk2 with hlt | heq
      · exact ⟨List.mem_append_left _ (hprog k2 hlt).1, (hprog k2 hlt).2⟩
      · rw [heq]
        exact ⟨List.mem_append_right _ (List.mem_singleton.mpr rfl), ho⟩
    · rw [if_neg hn] at hw'
      exact ⟨List.mem_append_left _ (h.busy_prog n' id' k' hw' k2 hk2).1,
        (h.busy_prog n' id' k' hw' k2 hk2).2⟩

lemma inv_raise (P : Prog) (s : Sys) (n : Bool) (id : ItemId) (k : Nat)
    (msg : String) (gid : ItemId) (h : Inv P s)
    (hw : getW n s = .busy id k) (_ho : opOutcome P id k = some (some msg))
    (hg : s.g = some gid) :
    Inv P (setW n .idle
      { s with excs := (gid, msg) :: s.excs,
               unfinished := s.unfinished - 1,
               trace := s.trace ++ [.op id k, .done id] }) := by
  have hidst : id.1 = s.sIdx := h.busy_stage n id k hw
  have hprog := h.busy_prog n id k hw
  obtain ⟨gid', hg', hgst'⟩ := h.g_busy n id k hw
  rw [hg] at hg'
  have hgst : gid.1 = s.sIdx := by
    rw [Option.some.inj hg']
    exact hgst'
  have hnock : ∀ rem, s.ph ≠ MainPh.checking rem := fun rem hph =>
    busy_quiet_contra P s n id k h hw (h.check_quiet rem hph)
  have hnoex : ∀ c, s.ph ≠ MainPh.exited c := fun c hph =>
    busy_quiet_contra P s n id k h hw (h.exit_quiet c hph)
  have htr2 : s.trace ++ [Ev.op id k, Ev.done id]
      = (s.trace ++ [Ev.op id k]) ++ [Ev.done id] := by simp
  constructor
  case ph_putting_lt =>
    intro rem h'
    rw [setW_ph] at h'
    rw [setW_sIdx]
    exact h.ph_putting_lt rem h'
  case ph_joining_lt =>
    intro h'
    rw [setW_ph] at h'
    rw [setW_sIdx]
    exact h.ph_joining_lt h'
  case ph_checking_lt =>
    intro rem h'
    rw [setW_ph] at h'
    exact absurd h' (hnock rem)
  case ph_exited1_lt =>
    intro h'
    rw [setW_ph] at h'
    exact absurd h' (hnoex 1)
  case ph_exited0 =>
    intro c h'
    rw [setW_ph] at h'
    exact absurd h' (hnoex c)
  case queue_stage =>
    intro id' hmem
    rw [setW_queue] at hmem
    rw [setW_sIdx]
    exact h.queue_stage id' hmem
  case busy_stage =>
    intro n' id' k' hw'
    rw [getW_update] at hw'
    rw [setW_sIdx]
    by_cases hn : n' = n
    · rw [if_pos hn] at hw'
      exact WSt.noConfusion hw'
    · rw [if_neg hn] at hw'
      exact h.busy_stage n' id' k' hw'
  case count =>
    have hs := wOcc_sum_set n WSt.idle { s with excs := (gid, msg) :: s.excs, unfinished := s.unfinished - 1, trace := s.trace ++ [Ev.op id k, Ev.done id] }
    have hg2 : getW n { s with excs := (gid, msg) :: s.excs, unfinished := s.unfinished - 1, trace := s.trace ++ [Ev.op id k, Ev.done id] } = WSt.busy id k := hw
    rw [hg2] at hs
    have h1 : wOcc (WSt.busy id k) = 1 := rfl
    have h2 : wOcc WSt.idle = 0 := rfl
    rw [h1, h2] at hs
    dsimp only at hs
    have hc := h.count
    have hocc := busy_occ n s id k hw
    simp only [setW_queue, setW_unfinished]
    omega
  case prev_done =>
    intro i id' hi hmem
    rw [setW_sIdx] at hi
    rw [setW_trace]
    exact ⟨List.mem_append_left _ (h.prev_done i id' hi hmem).1,
      List.mem_append_left _ (h.prev_done i id' hi hmem).2⟩
  case prev_clean =>
    intro i id'' hi hmem
    rw [setW_sIdx] at hi
    have hi2 : i < s.sIdx := hi
    have hne : gid ≠ id'' := by
      intro heq
      have h1 : id''.1 = i := ((mem_idsOf P i id'').mp hmem).1
      rw [← heq, hgst] at h1
      omega
    rw [setW_excs]
    show excLookup ((gid, msg) :: s.excs) id'' = none
    rw [excLookup_cons, if_neg hne]
    exact h.prev_clean i id'' hi2 hmem
  case g_busy =>
    intro n' id' k' hw'
    rw [getW_update] at hw'
    rw [setW_g, setW_sIdx]
    by_cases hn : n' = n
    · rw [if_pos hn] at hw'
      exact WSt.noConfusion hw'
    · rw [if_neg hn] at hw'
      exact h.g_busy n' id' k' hw'
  case g_queue =>
    intro hne
    rw [setW_queue] at hne
    rw [setW_g, setW_sIdx]
    exact h.g_queue hne
  case put_rem_sub =>
    intro rem h' id' hmem
    rw [setW_ph] at h'
    rw [setW_sIdx]
    exact h.put_rem_sub rem h' id' hmem
  case put_phase =>
    intro rem h' id' hmem
    rw [setW_ph] at h'
    rw [setW_sIdx] at hmem
    rw [setW_trace]
    rcases h.put_phase rem h' id' hmem with hin | hput
    · exact Or.inl hin
    · exact Or.inr (List.mem_append_left _ hput)
  case join_put =>
    intro h' id' hmem
    rw [setW_ph] at h'
    rw [setW_sIdx] at hmem
    rw [setW_trace]
    exact List.mem_append_left _ (h.join_put h' id' hmem)
  case lifecycle =>
    intro id' hput
    rw [setW_trace] at hput
    rcases List.mem_append.mp hput with hl | hr
    · rcases h.lifecycle id' hl with hqm | ⟨n2, k2, hb⟩ | ⟨n2, hd⟩ | hdone
      · left
        rw [setW_queue]
        exact hqm
      · by_cases hn : n2 = n
        · rw [hn, hw] at hb
          have h1 : id' = id := (WSt.busy.inj hb).1.symm
          refine Or.inr (Or.inr (Or.inr ?_))
          rw [setW_trace, h1]
          exact List.mem_append_right _ (by simp)
        · refine Or.inr (Or.inl ⟨n2, k2, ?_⟩)
          rw [getW_update, if_neg hn]
          exact hb
      · by_cases hn : n2 = n
        · rw [hn, hw] at hd
          exact WSt.noConfusion hd
        · refine Or.inr (Or.inr (Or.inl ⟨n2, ?_⟩))
          rw [getW_update, if_neg hn]
          exact hd
      · exact Or.inr (Or.inr (Or.inr (by
          rw [setW_trace]
          exact List.mem_append_left _ hdone)))
    · rcases List.mem_cons.mp hr with h1 | h2
      · exact absurd h1 (fun hc => Ev.noConfusion hc)
      · exact absurd (List.mem_singleton.mp h2) (fun hc => Ev.noConfusion hc)
  case check_done =>
    intro rem h'
    rw [setW_ph] at h'
    exact absurd h' (hnock rem)
  case check_quiet =>
    intro rem h'
    rw [setW_ph] at h'
    exact absurd h' (hnock rem)
  case check_ordered =>
    intro rem h'
    rw [setW_ph] at h'
    exact absurd h' (hnock rem)
  case exit_quiet =>
    intro c h'
    rw [setW_ph] at h'
    exact absurd h' (hnoex c)
  case err_clean =>
    intro _
    rw [setW_errLines]
    exact h.err_clean (hnoex 1)
  case err_exit1 =>
    intro h'
    rw [setW_ph] at h'
    exact absurd h' (hnoex 1)
  case put_stage =>
    intro id' hput
    rw [setW_trace] at hput
    rw [setW_sIdx]
    rcases List.mem_append.mp hput with hl | hr
    · exact h.put_stage id' hl
    · rcases List.mem_cons.mp hr with h1 | h2
      · exact absurd h1 (fun hc => Ev.noConfusion hc)
      · exact absurd (List.mem_singleton.mp h2) (fun hc => Ev.noConfusion hc)
  case barrier =>
    rw [setW_trace]
    show BarrierOK P (s.trace ++ [Ev.op id k, Ev.done id])
    rw [htr2]
    refine BarrierOK_append P _ _ ?_ ?_
    · refine BarrierOK_append P s.trace _ h.barrier ?_
      intro id' hid' i id'' hi hmem
      have heq : id' = id := by simpa [evId] using hid'.symm
      rw [heq, hidst] at hi
      exact h.prev_done i id'' hi hmem
    · intro id' hid'
      simp [evId] at hid'
  case op_order =>
    rw [setW_trace]
    show OpOrderOK P (s.trace ++ [Ev.op id k, Ev.done id])
    rw [htr2]
    refine OpOrderOK_append P _ _ ?_ ?_
    · refine OpOrderOK_append P s.trace _ h.op_order ?_
      intro id' k'' h' k' hk
      have h1 : id = id' := (Ev.op.inj h').1
      have h2 : k = k'' := (Ev.op.inj h').2
      rw [← h1]
      rw [← h2] at hk
      exact hprog k' hk
    · intro id' k'' h'
      exact Ev.noConfusion h'
  case busy_prog =>
    intro n' id' k' hw' k2 hk2
    rw [getW_update] at hw'
    rw [setW_trace]
    by_cases hn : n' = n
    · rw [if_pos hn] at hw'
      exact WSt.noConfusion hw'
    · rw [if_neg hn] at hw'
      exact ⟨List.mem_append_left _ (h.busy_prog n' id' k' hw' k2 hk2).1,
        (h.busy_prog n' id' k' hw' k2 hk2).2⟩

lemma inv_fin (P : Prog) (s : Sys) (n : Bool) (id : ItemId) (k : Nat)
    (h : Inv P s) (hw : getW n s = .busy id k)
    (_ho : opOutcome P id k = none) :
    Inv P (setW n .idle
      { s with unfinished := s.unfinished - 1,
               trace := s.trace ++ [.done id] }) := by
  have hidst : id.1 = s.sIdx := h.busy_stage n id k hw
  have hnock : ∀ rem, s.ph ≠ MainPh.checking rem := fun rem hph =>
    busy_quiet_contra P s n id k h hw (h.check_quiet rem hph)
  have hnoex : ∀ c, s.ph ≠ MainPh.exited c := fun c hph =>
    busy_quiet_contra P s n id k h hw (h.exit_quiet c hph)
  constructor
  case ph_putting_lt =>
    intro rem h'
    rw [setW_ph] at h'
    rw [setW_sIdx]
    exact h.ph_putting_lt rem h'
  case ph_joining_lt =>
    intro h'
    rw [setW_ph] at h'
    rw [setW_sIdx]
    exact h.ph_joining_lt h'
  case ph_checking_lt =>
    intro rem h'
    rw [setW_ph] at h'
    exact absurd h' (hnock rem)
  case ph_exited1_lt =>
    intro h'
    rw [setW_ph] at h'
    exact absurd h' (hnoex 1)
  case ph_exited0 =>
    intro c h'
    rw [setW_ph] at h'
    exact absurd h' (hnoex c)
  case queue_stage =>
    intro id' hmem
    rw [setW_queue] at hmem
    rw [setW_sIdx]
    exact h.queue_stage id' hmem
  case busy_stage =>
    intro n' id' k' hw'
    rw [getW_update] at hw'
    rw [setW_sIdx]
    by_cases hn : n' = n
    · rw [if_pos hn] at hw'
      exact WSt.noConfusion hw'
    · rw [if_neg hn] at hw'
      exact h.busy_stage n' id' k' hw'
  case count =>
    have hs := wOcc_sum_set n WSt.idle { s with unfinished := s.unfinished - 1, trace := s.trace ++ [Ev.done id] }
    have hg2 : getW n { s with unfinished := s.unfinished - 1, trace := s.trace ++ [Ev.done id] } = WSt.busy id k := hw
    rw [hg2] at hs
    have h1 : wOcc (WSt.busy id k) = 1 := rfl
    have h2 : wOcc WSt.idle = 0 := rfl
    rw [h1, h2] at hs
    dsimp only at hs
    have hc := h.count
    have hocc := busy_occ n s id k hw
    simp only [setW_queue, setW_unfinished]
    omega
  case prev_done =>
    intro i id' hi hmem
    rw [setW_sIdx] at hi
    rw [setW_trace]
    exact ⟨List.mem_append_left _ (h.prev_done i id' hi hmem).1,
      List.mem_append_left _ (h.prev_done i id' hi hmem).2⟩
  case prev_clean =>
    intro i id' hi hmem
    rw [setW_sIdx] at hi
    rw [setW_excs]
    exact h.prev_clean i id' hi hmem
  case g_busy =>
    intro n' id' k' hw'
    rw [getW_update] at hw'
    rw [setW_g, setW_sIdx]
    by_cases hn : n' = n
    · rw [if_pos hn] at hw'
      exact WSt.noConfusion hw'
    · rw [if_neg hn] at hw'
      exact h.g_busy n' id' k' hw'
  case g_queue =>
    intro hne
    rw [setW_queue] at hne
    rw [setW_g, setW_sIdx]
    exact h.g_queue hne
  case put_rem_sub =>
    intro rem h' id' hmem
    rw [setW_ph] at h'
    rw [setW_sIdx]
    exact h.put_rem_sub rem h' id' hmem
  case put_phase =>
    intro rem h' id' hmem
    rw [setW_ph] at h'
    rw [setW_sIdx] at hmem
    rw [setW_trace]
    rcases h.put_phase rem h' id' hmem with hin | hput
    · exact Or.inl hin
    · exact Or.inr (List.mem_append_left _ hput)
  case join_put =>
    intro h' id' hmem
    rw [setW_ph] at h'
    rw [setW_sIdx] at hmem
    rw [setW_trace]
    exact List.mem_append_left _ (h.join_put h' id' hmem)
  case lifecycle =>
    intro id' hput
    rw [setW_trace] at hput
    rcases List.mem_append.mp hput with hl | hr
    · rcases h.lifecycle id' hl with hqm | ⟨n2, k2, hb⟩ | ⟨n2, hd⟩ | hdone
      · left
        rw [setW_queue]
        exact hqm
      · by_cases hn : n2 = n
        · rw [hn, hw] at hb
          have h1 : id' = id := (WSt.busy.inj hb).1.symm
          refine Or.inr (Or.inr (Or.inr ?_))
          rw [setW_trace, h1]
          exact List.mem_append_right _ (by simp)
        · refine Or.inr (Or.inl ⟨n2, k2, ?_⟩)
          rw [getW_update, if_neg hn]
          exact hb
      · by_cases hn : n2 = n
        · rw [hn, hw] at hd
          exact WSt.noConfusion hd
        · refine Or.inr (Or.inr (Or.inl ⟨n2, ?_⟩))
          rw [getW_update, if_neg hn]
          exact hd
      · exact Or.inr (Or.inr (Or.inr (by
          rw [setW_trace]
          exact List.mem_append_left _ hdone)))
    · exact absurd (List.mem_singleton.mp hr) (fun hc => Ev.noConfusion hc)
  case check_done =>
    intro rem h'
    rw [setW_ph] at h'
    exact absurd h' (hnock rem)
  case check_quiet =>
    intro rem h'
    rw [setW_ph] at h'
    exact absurd h' (hnock rem)
  case check_ordered =>
    intro rem h'
    rw [setW_ph] at h'
    exact absurd h' (hnock rem)
  case exit_quiet =>
    intro c h'
    rw [setW_ph] at h'
    exact absurd h' (hnoex c)
  case err_clean =>
    intro _
    rw [setW_errLines]
    exact h.err_clean (hnoex 1)
  case err_exit1 =>
    intro h'
    rw [setW_ph] at h'
    exact absurd h' (hnoex 1)
  case put_stage =>
    intro id' hput
    rw [setW_trace] at hput
    rw [setW_sIdx]
    rcases List.mem_append.mp hput with hl | hr
    · exact h.put_stage id' hl
    · exact absurd (List.mem_singleton.mp hr) (fun hc => Ev.noConfusion hc)
  case barrier =>
    rw [setW_trace]
    refine BarrierOK_append P s.trace _ h.barrier ?_
    intro id' hid'
    simp [evId] at hid'
  case op_order =>
    rw [setW_trace]
    refine OpOrderOK_append P s.trace _ h.op_order ?_
    intro id' k'' h'
    exact Ev.noConfusion h'
  case busy_prog =>
    intro n' id' k' hw' k2 hk2
    rw [getW_update] at hw'
    rw [setW_trace]
    by_cases hn : n' = n
    · rw [if_pos hn] at hw'
      exact WSt.noConfusion hw'
    · rw [if_neg hn] at hw'
      exact ⟨List.mem_append_left _ (h.busy_prog n' id' k' hw' k2 hk2).1,
        (h.busy_prog n' id' k' hw' k2 hk2).2⟩

lemma inv_put_nil (P : Prog) (s : Sys) (h : Inv P s)
    (hph : s.ph = .putting []) : Inv P { s with ph := .joining } := by
  have hlt := h.ph_putting_lt [] hph
  refine
    { ph_putting_lt := fun _ h' => MainPh.noConfusion h'
      ph_joining_lt := fun _ => hlt
      ph_checking_lt := fun _ h' => MainPh.noConfusion h'
      ph_exited1_lt := fun h' => MainPh.noConfusion h'
      ph_exited0 := fun _ h' => MainPh.noConfusion h'
      queue_stage := h.queue_stage
      busy_stage := h.busy_stage
      count := h.count
      prev_done := h.prev_done
      prev_clean := h.prev_clean
      g_busy := h.g_busy
      g_queue := h.g_queue
      put_rem_sub := fun _ h' => MainPh.noConfusion h'
      put_phase := fun _ h' => MainPh.noConfusion h'
      join_put := ?_
      lifecycle := h.lifecycle
      check_done := fun _ h' => MainPh.noConfusion h'
      check_quiet := fun _ h' => MainPh.noConfusion h'
      check_ordered := fun _ h' => MainPh.noConfusion h'
      exit_quiet := fun _ h' => MainPh.noConfusion h'
      err_clean := fun _ =>
        h.err_clean (by rw [hph]; intro h'; exact MainPh.noConfusion h')
      err_exit1 := fun h' => MainPh.noConfusion h'
      put_stage := h.put_stage
      barrier := h.barrier
      op_order := h.op_order
      busy_prog := h.busy_prog }
  intro _ id hmem
  rcases h.put_phase [] hph id hmem with hin | hput
  · exact absurd hin (List.not_mem_nil _)
  · exact hput

lemma inv_join_go (P : Prog) (s : Sys) (h : Inv P s) (hph : s.ph = .joining)
    (hz : s.unfinished = 0) :
    Inv P { s with ph := .checking (idsOf P s.sIdx) } := by
  have hlt := h.ph_joining_lt hph
  have hc := h.count
  have hq : s.queue = [] := List.length_eq_zero.mp (by omega)
  have hw1 : s.w1 = .idle := wOcc_zero _ (by omega)
  have hw2 : s.w2 = .idle := wOcc_zero _ (by omega)
  have hnobusy : ∀ n id k, getW n s ≠ .busy id k := by
    intro n id k hwx
    cases n
    · rw [getW_false, hw1] at hwx
      exact WSt.noConfusion hwx
    · rw [getW_true, hw2] at hwx
      exact WSt.noConfusion hwx
  have hnodead : ∀ n, getW n s ≠ .dead := by
    intro n hwx
    cases n
    · rw [getW_false, hw1] at hwx
      exact WSt.noConfusion hwx
    · rw [getW_true, hw2] at hwx
      exact WSt.noConfusion hwx
  have hdone : ∀ id ∈ idsOf P s.sIdx, Ev.done id ∈ s.trace := by
    intro id hmem
    rcases h.lifecycle id (h.join_put hph id hmem) with
      hqm | ⟨n2, k2, hb⟩ | ⟨n2, hd⟩ | hdn
    · rw [hq] at hqm
      exact absurd hqm (List.not_mem_nil _)
    · exact absurd hb (hnobusy n2 _ k2)
    · exact absurd hd (hnodead n2)
    · exact hdn
  refine
    { ph_putting_lt := fun _ h' => MainPh.noConfusion h'
      ph_joining_lt := fun h' => MainPh.noConfusion h'
      ph_checking_lt := fun _ _ => hlt
      ph_exited1_lt := fun h' => MainPh.noConfusion h'
      ph_exited0 := fun _ h' => MainPh.noConfusion h'
      queue_stage := h.queue_stage
      busy_stage := h.busy_stage
      count := h.count
      prev_done := h.prev_done
      prev_clean := h.prev_clean
      g_busy := h.g_busy
      g_queue := h.g_queue
      put_rem_sub := fun _ h' => MainPh.noConfusion h'
      put_phase := fun _ h' => MainPh.noConfusion h'
      join_put := fun h' => MainPh.noConfusion h'
      lifecycle := h.lifecycle
      check_done := fun _ _ => hdone
      check_quiet := fun _ _ => hz
      check_ordered := ?_
      exit_quiet := fun _ h' => MainPh.noConfusion h'
      err_clean := fun _ =>
        h.err_clean (by rw [hph]; intro h'; exact MainPh.noConfusion h')
      err_exit1 := fun h' => MainPh.noConfusion h'
      put_stage := h.put_stage
      barrier := h.barrier
      op_order := h.op_order
      busy_prog := h.busy_prog }
  intro rem h'
  have hr : rem = idsOf P s.sIdx := (MainPh.checking.inj h').symm
  subst hr
  exact ⟨[], rfl, fun id hm => absurd hm (List.not_mem_nil _)⟩

lemma inv_check_ok (P : Prog) (s : Sys) (id : ItemId) (rem : List ItemId)
    (h : Inv P s) (hph : s.ph = .checking (id :: rem))
    (hexc : excLookup s.excs id = none) :
    Inv P { s with ph := .checking rem, g := some id,
                   trace := s.trace ++ [.checked id] } := by
  have hlt := h.ph_checking_lt _ hph
  obtain ⟨pre, hsplit, hpre⟩ := h.check_ordered _ hph
  have hidm : id ∈ idsOf P s.sIdx := by
    rw [hsplit]
    exact List.mem_append_right _ (List.mem_cons_self _ _)
  have hidst : id.1 = s.sIdx := ((mem_idsOf _ _ _).mp hidm).1
  refine
    { ph_putting_lt := fun _ h' => MainPh.noConfusion h'
      ph_joining_lt := fun h' => MainPh.noConfusion h'
      ph_checking_lt := fun _ _ => hlt
      ph_exited1_lt := fun h' => MainPh.noConfusion h'
      ph_exited0 := fun _ h' => MainPh.noConfusion h'
      queue_stage := h.queue_stage
      busy_stage := h.busy_stage
      count := h.count
      prev_done := fun i id' hi hmem =>
        ⟨List.mem_append_left _ (h.prev_done i id' hi hmem).1,
          List.mem_append_left _ (h.prev_done i id' hi hmem).2⟩
      prev_clean := h.prev_clean
      g_busy := fun _ _ _ _ => ⟨id, rfl, hidst⟩
      g_queue := fun _ => ⟨id, rfl, hidst⟩
      put_rem_sub := fun _ h' => MainPh.noConfusion h'
      put_phase := fun _ h' => MainPh.noConfusion h'
      join_put := fun h' => MainPh.noConfusion h'
      lifecycle := ?_
      check_done := fun _ _ id' hmem =>
        List.mem_append_left _ (h.check_done _ hph id' hmem)
      check_quiet := fun _ _ => h.check_quiet _ hph
      check_ordered := ?_
      exit_quiet := fun _ h' => MainPh.noConfusion h'
      err_clean := fun _ =>
        h.err_clean (by rw [hph]; intro h'; exact MainPh.noConfusion h')
      err_exit1 := fun h' => MainPh.noConfusion h'
      put_stage := ?_
      barrier := ?_
      op_order := ?_
      busy_prog := fun n id' k hw k' hk =>
        ⟨List.mem_append_left _ (h.busy_prog n id' k hw k' hk).1,
          (h.busy_prog n id' k hw k' hk).2⟩ }
  · intro id' hput
    rcases List.mem_append.mp hput with hl | hr
    · rcases h.lifecycle id' hl with hqm | hb | hd | hdn
      · exact Or.inl hqm
      · exact Or.inr (Or.inl hb)
      · exact Or.inr (Or.inr (Or.inl hd))
      · exact Or.inr (Or.inr (Or.inr (List.mem_append_left _ hdn)))
    · exact absurd (List.mem_singleton.mp hr) (fun hc => Ev.noConfusion hc)
  · intro rem' h'
    have hr : rem' = rem := (MainPh.checking.inj h').symm
    subst hr
    refine ⟨pre ++ [id], ?_, ?_⟩
    · rw [hsplit, List.append_assoc]
      rfl
    · intro id' hm
      rcases List.mem_append.mp hm with hm1 | hm2
      · exact ⟨(hpre id' hm1).1, List.mem_append_left _ (hpre id' hm1).2⟩
      · rw [List.mem_singleton.mp hm2]
        exact ⟨hexc, List.mem_append_right _ (List.mem_singleton.mpr rfl)⟩
  · intro id' hput
    rcases List.mem_append.mp hput with hl | hr
    · exact h.put_stage id' hl
    · exact absurd (List.mem_singleton.mp hr) (fun hc => Ev.noConfusion hc)
  · refine BarrierOK_append P s.trace _ h.barrier ?_
    intro id' hid'
    simp [evId] at hid'
  · refine OpOrderOK_append P s.trace _ h.op_order ?_
    intro id' k'' h'
    exact Ev.noConfusion h'

lemma inv_check_fail (P : Prog) (s : Sys) (id : ItemId) (rem : List ItemId)
    (msg : String) (h : Inv P s) (hph : s.ph = .checking (id :: rem))
    (hexc : excLookup s.excs id = some msg) :
    Inv P { s with ph := .exited 1, g := some id,
                   errLines := s.errLines ++ [msg] } := by
  have hlt := h.ph_checking_lt _ hph
  obtain ⟨pre, hsplit, hpre⟩ := h.check_ordered _ hph
  have hidm : id ∈ idsOf P s.sIdx := by
    rw [hsplit]
    exact List.mem_append_right _ (List.mem_cons_self _ _)
  have hidst : id.1 = s.sIdx := ((mem_idsOf _ _ _).mp hidm).1
  have herr : s.errLines = [] :=
    h.err_clean (by rw [hph]; intro h'; exact MainPh.noConfusion h')
  refine
    { ph_putting_lt := fun _ h' => MainPh.noConfusion h'
      ph_joining_lt := fun h' => MainPh.noConfusion h'
      ph_checking_lt := fun _ h' => MainPh.noConfusion h'
      ph_exited1_lt := fun _ => hlt
      ph_exited0 := fun c h' => Or.inr (MainPh.exited.inj h').symm
      queue_stage := h.queue_stage
      busy_stage := h.busy_stage
      count := h.count
      prev_done := h.prev_done
      prev_clean := h.prev_clean
      g_busy := fun _ _ _ _ => ⟨id, rfl, hidst⟩
      g_queue := fun _ => ⟨id, rfl, hidst⟩
      put_rem_sub := fun _ h' => MainPh.noConfusion h'
      put_phase := fun _ h' => MainPh.noConfusion h'
      join_put := fun h' => MainPh.noConfusion h'
      lifecycle := h.lifecycle
      check_done := fun _ h' => MainPh.noConfusion h'
      check_quiet := fun _ h' => MainPh.noConfusion h'
      check_ordered := fun _ h' => MainPh.noConfusion h'
      exit_quiet := fun _ _ => h.check_quiet _ hph
      err_clean := fun h' => absurd rfl h'
      err_exit1 := ?_
      put_stage := h.put_stage
      barrier := h.barrier
      op_order := h.op_order
      busy_prog := h.busy_prog }
  intro _
  refine ⟨pre, id, rem, msg, hsplit, fun id' hm => (hpre id' hm).1, hexc, ?_⟩
  rw [herr]
  rfl

lemma checking_nil_facts (P : Prog) (s : Sys) (h : Inv P s)
    (hph : s.ph = .checking []) :
    s.queue = [] ∧ s.w1 = .idle ∧ s.w2 = .idle
      ∧ ∀ id ∈ idsOf P s.sIdx,
          Ev.done id ∈ s.trace ∧ Ev.checked id ∈ s.trace
            ∧ excLookup s.excs id = none := by
  have hz := h.check_quiet [] hph
  have hc := h.count
  have hq : s.queue = [] := List.length_eq_zero.mp (by omega)
  have hw1 : s.w1 = .idle := wOcc_zero _ (by omega)
  have hw2 : s.w2 = .idle := wOcc_zero _ (by omega)
  obtain ⟨pre, hsplit, hpre⟩ := h.check_ordered [] hph
  rw [List.append_nil] at hsplit
  refine ⟨hq, hw1, hw2, ?_⟩
  intro id hmem
  have hm2 : id ∈ pre := by rw [← hsplit]; exact hmem
  exact ⟨h.check_done [] hph id hmem, (hpre id hm2).2, (hpre id hm2).1⟩

lemma inv_next_more (P : Prog) (s : Sys) (h : Inv P s)
    (hph : s.ph = .checking []) (hlt2 : s.sIdx + 1 < P.length) :
    Inv P { s with sIdx := s.sIdx + 1,
                   ph := .putting (idsOf P (s.sIdx + 1)),
                   outLines := s.outLines ++ [banner (s.sIdx + 1) P.length] } := by
  obtain ⟨hq, hw1, hw2, hfacts⟩ := checking_nil_facts P s h hph
  have hnobusy : ∀ n id k, getW n s ≠ .busy id k := by
    intro n id k hwx
    cases n
    · rw [getW_false, hw1] at hwx
      exact WSt.noConfusion hwx
    · rw [getW_true, hw2] at hwx
      exact WSt.noConfusion hwx
  have hnodead : ∀ n, getW n s ≠ .dead := by
    intro n hwx
    cases n
    · rw [getW_false, hw1] at hwx
      exact WSt.noConfusion hwx
    · rw [getW_true, hw2] at hwx
      exact WSt.noConfusion hwx
  refine
    { ph_putting_lt := fun _ _ => hlt2
      ph_joining_lt := fun h' => MainPh.noConfusion h'
      ph_checking_lt := fun _ h' => MainPh.noConfusion h'
      ph_exited1_lt := fun h' => MainPh.noConfusion h'
      ph_exited0 := fun _ h' => MainPh.noConfusion h'
      queue_stage := ?_
      busy_stage := fun n id k hw => absurd hw (hnobusy n id k)
      count := h.count
      prev_done := ?_
      prev_clean := ?_
      g_busy := fun n id k hw => absurd hw (hnobusy n id k)
      g_queue := fun hne => absurd hq hne
      put_rem_sub := ?_
      put_phase := ?_
      join_put := fun h' => MainPh.noConfusion h'
      lifecycle := ?_
      check_done := fun _ h' => MainPh.noConfusion h'
      check_quiet := fun _ h' => MainPh.noConfusion h'
      check_ordered := fun _ h' => MainPh.noConfusion h'
      exit_quiet := fun _ h' => MainPh.noConfusion h'
      err_clean := fun _ =>
        h.err_clean (by rw [hph]; intro h'; exact MainPh.noConfusion h')
      err_exit1 := fun h' => MainPh.noConfusion h'
      put_stage := fun id hput => Nat.le_succ_of_le (h.put_stage id hput)
      barrier := h.barrier
      op_order := h.op_order
      busy_prog := fun n id k hw => absurd hw (hnobusy n id k) }
  · intro id hmem
    have hm : id ∈ s.queue := hmem
    rw [hq] at hm
    exact absurd hm (List.not_mem_nil _)
  · intro i id hi hmem
    have hi2 : i < s.sIdx + 1 := hi
    rcases Nat.lt_succ_iff_lt_or_eq.mp hi2 with hi3 | hi3
    · exact h.prev_done i id hi3 hmem
    · subst hi3
      exact ⟨(hfacts id hmem).1, (hfacts id hmem).2.1⟩
  · intro i id hi hmem
    have hi2 : i < s.sIdx + 1 := hi
    rcases Nat.lt_succ_iff_lt_or_eq.mp hi2 with hi3 | hi3
    · exact h.prev_clean i id hi3 hmem
    · subst hi3
      exact (hfacts id hmem).2.2
  · intro rem h' id hmem
    have hr : rem = idsOf P (s.sIdx + 1) := (MainPh.putting.inj h').symm
    subst hr
    exact hmem
  · intro rem h' id hmem
    have hr : rem = idsOf P (s.sIdx + 1) := (MainPh.putting.inj h').symm
    subst hr
    exact Or.inl hmem
  · intro id hput
    rcases h.lifecycle id hput with hqm | ⟨n2, k2, hb⟩ | ⟨n2, hd⟩ | hdn
    · rw [hq] at hqm
      exact absurd hqm (List.not_mem_nil _)
    · exact absurd hb (hnobusy n2 _ k2)
    · exact absurd hd (hnodead n2)
    · exact Or.inr (Or.inr (Or.inr hdn))

lemma inv_next_exit (P : Prog) (s : Sys) (h : Inv P s)
    (hph : s.ph = .checking []) (hge : ¬ s.sIdx + 1 < P.length) :
    Inv P { s with sIdx := s.sIdx + 1, ph := .exited 0 } := by
  obtain ⟨hq, hw1, hw2, hfacts⟩ := checking_nil_facts P s h hph
  have hlt := h.ph_checking_lt [] hph
  have hEq : s.sIdx + 1 = P.length := by omega
  have hnobusy : ∀ n id k, getW n s ≠ .busy id k := by
    intro n id k hwx
    cases n
    · rw [getW_false, hw1] at hwx
      exact WSt.noConfusion hwx
    · rw [getW_true, hw2] at hwx
      exact WSt.noConfusion hwx
  have hnodead : ∀ n, getW n s ≠ .dead := by
    intro n hwx
    cases n
    · rw [getW_false, hw1] at hwx
      exact WSt.noConfusion hwx
    · rw [getW_true, hw2] at hwx
      exact WSt.noConfusion hwx
  refine
    { ph_putting_lt := fun _ h' => MainPh.noConfusion h'
      ph_joining_lt := fun h' => MainPh.noConfusion h'
      ph_checking_lt := fun _ h' => MainPh.noConfusion h'
      ph_exited1_lt := fun h' => absurd (MainPh.exited.inj h') (by decide)
      ph_exited0 := fun c h' => Or.inl ⟨(MainPh.exited.inj h').symm, hEq⟩
      queue_stage := ?_
      busy_stage := fun n id k hw => absurd hw (hnobusy n id k)
      count := h.count
      prev_done := ?_
      prev_clean := ?_
      g_busy := fun n id k hw => absurd hw (hnobusy n id k)
      g_queue := fun hne => absurd hq hne
      put_rem_sub := fun _ h' => MainPh.noConfusion h'
      put_phase := fun _ h' => MainPh.noConfusion h'
      join_put := fun h' => MainPh.noConfusion h'
      lifecycle := ?_
      check_done := fun _ h' => MainPh.noConfusion h'
      check_quiet := fun _ h' => MainPh.noConfusion h'
      check_ordered := fun _ h' => MainPh.noConfusion h'
      exit_quiet := fun _ _ => h.check_quiet [] hph
      err_clean := fun _ =>
        h.err_clean (by rw [hph]; intro h'; exact MainPh.noConfusion h')
      err_exit1 := fun h' => absurd (MainPh.exited.inj h') (by decide)
      put_stage := fun id hput => Nat.le_succ_of_le (h.put_stage id hput)
      barrier := h.barrier
      op_order := h.op_order
      busy_prog := fun n id k hw => absurd hw (hnobusy n id k) }
  · intro id hmem
    have hm : id ∈ s.queue := hmem
    rw [hq] at hm
    exact absurd hm (List.not_mem_nil _)
  · intro i id hi hmem
    have hi2 : i < s.sIdx + 1 := hi
    rcases Nat.lt_succ_iff_lt_or_eq.mp hi2 with hi3 | hi3
    · exact h.prev_done i id hi3 hmem
    · subst hi3
      exact ⟨(hfacts id hmem).1, (hfacts id hmem).2.1⟩
  · intro i id hi hmem
    have hi2 : i < s.sIdx + 1 := hi
    rcases Nat.lt_succ_iff_lt_or_eq.mp hi2 with hi3 | hi3
    · exact h.prev_clean i id hi3 hmem
    · subst hi3
      exact (hfacts id hmem).2.2
  · intro id hput
    rcases h.lifecycle id hput with hqm | ⟨n2, k2, hb⟩ | ⟨n2, hd⟩ | hdn
    · rw [hq] at hqm
      exact absurd hqm (List.not_mem_nil _)
    · exact absurd hb (hnobusy n2 _ k2)
    · exact absurd hd (hnodead n2)
    · exact Or.inr (Or.inr (Or.inr hdn))

lemma inv_start (P : Prog) : Inv P (startSys P) := by
  unfold startSys stageEnter
  by_cases h0 : 0 < P.length
  · rw [if_pos h0]
    refine
      { ph_putting_lt := fun _ _ => h0
        ph_joining_lt := fun h' => MainPh.noConfusion h'
        ph_checking_lt := fun _ h' => MainPh.noConfusion h'
        ph_exited1_lt := fun h' => MainPh.noConfusion h'
        ph_exited0 := fun _ h' => MainPh.noConfusion h'
        queue_stage := fun id hmem => absurd hmem (List.not_mem_nil _)
        busy_stage := ?_
        count := Nat.le_refl 0
        prev_done := fun i id hi _ => absurd hi (Nat.not_lt_zero i)
        prev_clean := fun i id hi _ => absurd hi (Nat.not_lt_zero i)
        g_busy := ?_
        g_queue := fun hne => absurd rfl hne
        put_rem_sub := ?_
        put_phase := ?_
        join_put := fun h' => MainPh.noConfusion h'
        lifecycle := fun id hput => absurd hput (List.not_mem_nil _)
        check_done := fun _ h' => MainPh.noConfusion h'
        check_quiet := fun _ h' => MainPh.noConfusion h'
        check_ordered := fun _ h' => MainPh.noConfusion h'
        exit_quiet := fun _ h' => MainPh.noConfusion h'
        err_clean := fun _ => rfl
        err_exit1 := fun h' => MainPh.noConfusion h'
        put_stage := fun id hput => absurd hput (List.not_mem_nil _)
        barrier := BarrierOK_nil P
        op_order := OpOrderOK_nil P
        busy_prog := ?_ }
    · intro n id k hw
      cases n
      · exact WSt.noConfusion hw
      · exact WSt.noConfusion hw
    · intro n id k hw
      cases n
      · exact WSt.noConfusion hw
      · exact WSt.noConfusion hw
    · intro rem h' id hmem
      have hr : rem = idsOf P 0 := (MainPh.putting.inj h').symm
      subst hr
      exact hmem
    · intro rem h' id hmem
      have hr : rem = idsOf P 0 := (MainPh.putting.inj h').symm
      subst hr
      exact Or.inl hmem
    · intro n id k hw
      cases n
      · exact WSt.noConfusion hw
      · exact WSt.noConfusion hw
  · rw [if_neg h0]
    have hlen : P.length = 0 := Nat.eq_zero_of_not_pos h0
    refine
      { ph_putting_lt := fun _ h' => MainPh.noConfusion h'
        ph_joining_lt := fun h' => MainPh.noConfusion h'
        ph_checking_lt := fun _ h' => MainPh.noConfusion h'
        ph_exited1_lt := fun h' => absurd (MainPh.exited.inj h') (by decide)
        ph_exited0 := fun c h' =>
          Or.inl ⟨(MainPh.exited.inj h').symm, hlen.symm⟩
        queue_stage := fun id hmem => absurd hmem (List.not_mem_nil _)
        busy_stage := ?_
        count := Nat.le_refl 0
        prev_done := fun i id hi _ => absurd hi (Nat.not_lt_zero i)
        prev_clean := fun i id hi _ => absurd hi (Nat.not_lt_zero i)
        g_busy := ?_
        g_queue := fun hne => absurd rfl hne
        put_rem_sub := fun _ h' => MainPh.noConfusion h'
        put_phase := fun _ h' => MainPh.noConfusion h'
        join_put := fun h' => MainPh.noConfusion h'
        lifecycle := fun id hput => absurd hput (List.not_mem_nil _)
        check_done := fun _ h' => MainPh.noConfusion h'
        check_quiet := fun _ h' => MainPh.noConfusion h'
        check_ordered := fun _ h' => MainPh.noConfusion h'
        exit_quiet := fun _ _ => rfl
        err_clean := fun _ => rfl
        err_exit1 := fun h' => absurd (MainPh.exited.inj h') (by decide)
        put_stage := fun id hput => absurd hput (List.not_mem_nil _)
        barrier := BarrierOK_nil P
        op_order := OpOrderOK_nil P
        busy_prog := ?_ }
    · intro n id k hw
      cases n
      · exact WSt.noConfusion hw
      · exact WSt.noConfusion hw
    · intro n id k hw
      cases n
      · exact WSt.noConfusion hw
      · exact WSt.noConfusion hw
    · intro n id k hw
      cases n
      · exact WSt.noConfusion hw
      · exact WSt.noConfusion hw

lemma inv_stepC (P : Prog) (c : Choice) (s : Sys) (h : Inv P s) :
    Inv P (stepC P c s) := by
  cases c with
  | main =>
    show Inv P (mainStep P s)
    cases hph : s.ph with
    | putting rem =>
      cases rem with
      | nil =>
        rw [mainStep_put_nil P s hph]
        exact inv_put_nil P s h hph
      | cons id rem =>
        rw [mainStep_put P s id rem hph]
        exact inv_put P s id rem h hph
    | joining =>
      rw [mainStep_joining P s hph]
      by_cases hz : s.unfinished = 0
      · rw [if_pos hz]
        exact inv_join_go P s h hph hz
      · rw [if_neg hz]
        exact h
    | checking rem =>
      cases rem with
      | nil =>
        rw [mainStep_next P s hph]
        unfold stageEnter
        by_cases hlt2 : s.sIdx + 1 < P.length
        · rw [if_pos hlt2]
          exact inv_next_more P s h hph hlt2
        · rw [if_neg hlt2]
          exact inv_next_exit P s h hph hlt2
      | cons id rem =>
        cases hexc : excLookup s.excs id with
        | none =>
          rw [mainStep_check_ok P s id rem hph hexc]
          exact inv_check_ok P s id rem h hph hexc
        | some msg =>
          rw [mainStep_check_fail P s id rem msg hph hexc]
          exact inv_check_fail P s id rem msg h hph hexc
    | exited code =>
      rw [mainStep_exited P s code hph]
      exact h
  | work n =>
    show Inv P (workStep P n s)
    unfold workStep
    by_cases hex : s.ph.isExited = true
    · rw [if_pos hex]
      exact h
    · rw [if_neg hex]
      cases hw : getW n s with
      | idle =>
        cases hq : s.queue with
        | nil =>
          rw [workBody_idle_nil P s n hw hq]
          exact h
        | cons id q =>
          rw [workBody_get P s n id q hw hq]
          exact inv_get P s n id q h hw hq
      | busy id k =>
        cases ho : opOutcome P id k with
        | none =>
          rw [workBody_fin P s n id k hw ho]
          exact inv_fin P s n id k h hw ho
        | some op =>
          cases op with
          | none =>
            rw [workBody_op_ok P s n id k hw ho]
            exact inv_op_ok P s n id k h hw ho
          | some msg =>
            cases hgs : s.g with
            | none =>
              obtain ⟨gid', hg', _⟩ := h.g_busy n id k hw
              rw [hgs] at hg'
              exact absurd hg' (fun hc => Option.noConfusion hc)
            | some gid =>
              rw [workBody_raise P s n id k msg gid hw ho hgs]
              exact inv_raise P s n id k msg gid h hw ho hgs
      | dead =>
        rw [workBody_dead P s n hw]
        exact h

lemma inv_runFrom (P : Prog) :
    ∀ (cs : List Choice) (s : Sys), Inv P s → Inv P (runFrom P s cs)
  | [], _, h => h
  | c :: cs, s, h => inv_runFrom P cs (stepC P c s) (inv_stepC P c s h)

/-- Every reachable state of the harness satisfies the invariant. -/
theorem inv_reach (P : Prog) (s : Sys) (h : Reachable P s) : Inv P s := by
  obtain ⟨cs, hcs⟩ := h
  rw [← hcs]
  exact inv_runFrom P cs (startSys P) (inv_start P)

/-- Claim C2: in every reachable state, whenever the trace records a
dispatch or execution event (`put`, `start`, or a work function running) for
an item of stage `j`, then for every stage `i < j` every item of stage `i`
has already completed (`task_done`) and been checked by the orchestrator
loop strictly earlier in the trace: stages are dispatched in order with a
barrier (the queue join plus the check loop) between them. -/
theorem stage_barrier (P : Prog) (s : Sys) (hs : Reachable P s)
    (t1 : List Ev) (e : Ev) (t2 : List Ev) (id : ItemId)
    (htr : s.trace = t1 ++ e :: t2) (hid : evId e = some id)
    (i : Nat) (id' : ItemId) (hi : i < id.1) (hmem : id' ∈ idsOf P i) :
    Ev.done id' ∈ t1 ∧ Ev.checked id' ∈ t1 :=
  (inv_reach P s hs).barrier t1 e t2 id htr hid i id' hi hmem

/-- A two-stage script, one single-function item per stage, both
succeeding. -/
def progTwoStages : Prog := [[[none]], [[none]]]

/-- A schedule that drives `progTwoStages` through stage 0, its barrier and
check, and into the first work function of stage 1. -/
def schedTwoStages : List Choice :=
  [.main, .main, .work false, .work false, .work false, .main, .main,
    .main, .main, .main, .work false, .work false]

/-- Witness for claim C2 on a concrete schedule: the stage-1 work function
runs only after stage 0's item is done and checked. -/
theorem stage_barrier_spot :
    Ev.done (0, 0)
        ∈ ([Ev.put (0, 0), Ev.start (0, 0), Ev.op (0, 0) 0, Ev.done (0, 0),
            Ev.checked (0, 0), Ev.put (1, 0), Ev.start (1, 0)] : List Ev)
      ∧ Ev.checked (0, 0)
        ∈ ([Ev.put (0, 0), Ev.start (0, 0), Ev.op (0, 0) 0, Ev.done (0, 0),
            Ev.checked (0, 0), Ev.put (1, 0), Ev.start (1, 0)] : List Ev) :=
  stage_barrier progTwoStages (runC progTwoStages schedTwoStages)
    ⟨schedTwoStages, rfl⟩
    [Ev.put (0, 0), Ev.start (0, 0), Ev.op (0, 0) 0, Ev.done (0, 0),
      Ev.checked (0, 0), Ev.put (1, 0), Ev.start (1, 0)]
    (Ev.op (1, 0) 0) [] (1, 0) (by decide) (by decide) 0 (0, 0)
    (by decide) (by decide)

/-- One stage with two items; the first item's only work function raises
`Exception("boom")`, the second item's succeeds. -/
def progMisattr : Prog := [[[some "boom"], [none]]]

/-- Schedule: the main thread puts both items (leaving the module-global
`work_item` bound to the second), then the first worker dequeues item (0,0)
and its work function raises. -/
def schedMisattr : List Choice := [.main, .main, .work false, .work false]

/-- Claim C3 (code bug): the worker's `except` clause assigns
`work_item.exception`, but `work_item` is not the dequeued `item` — it is
the module-global leaked from the main thread's put loop.  In this run the
only executed item is (0,0), whose work function raised, as the trace
shows; yet (0,0)'s exception field stays `None` and the failure is recorded
on item (0,1), which never even started. -/
theorem worker_exception_misattributed :
    excLookup (runC progMisattr schedMisattr).excs (0, 0) = none
      ∧ excLookup (runC progMisattr schedMisattr).excs (0, 1) = some "boom"
      ∧ (runC progMisattr schedMisattr).trace
          = [Ev.put (0, 0), Ev.put (0, 1), Ev.start (0, 0), Ev.op (0, 0) 0,
             Ev.done (0, 0)] := by
  decide

/-- Claim C7: in every reachable state, whenever the k-th work function of
an item runs, every earlier work function of that same item already ran —
strictly earlier in the trace — and returned normally; hence after a raise
no later work function of that item ever runs, and the item's functions
execute in the order given. -/
theorem work_funcs_in_order (P : Prog) (s : Sys) (hs : Reachable P s)
    (t1 : List Ev) (id : ItemId) (k : Nat) (t2 : List Ev)
    (htr : s.trace = t1 ++ Ev.op id k :: t2) (k' : Nat) (hk : k' < k) :
    Ev.op id k' ∈ t1 ∧ opOutcome P id k' = some none :=
  (inv_reach P s hs).op_order t1 id k t2 htr k' hk

/-- One stage, one item with two work functions, both succeeding. -/
def progTwoFuncs : Prog := [[[none, none]]]

/-- Schedule running both work functions of the single item. -/
def schedTwoFuncs : List Choice :=
  [.main, .main, .work false, .work false, .work false]

/-- Witness for claim C7: when the second work function runs, the first has
already run and succeeded. -/
theorem work_funcs_in_order_spot :
    Ev.op (0, 0) 0
        ∈ ([Ev.put (0, 0), Ev.start (0, 0), Ev.op (0, 0) 0] : List Ev)
      ∧ opOutcome progTwoFuncs (0, 0) 0 = some none :=
  work_funcs_in_order progTwoFuncs (runC progTwoFuncs schedTwoFuncs)
    ⟨schedTwoFuncs, rfl⟩
    [Ev.put (0, 0), Ev.start (0, 0), Ev.op (0, 0) 0]
    (0, 0) 1 [] (by decide) 0 (by decide)

/-- Claim C8 as amended: in every reachable state, the process has exited
with code 0 exactly when every stage was completed and checked with no item
carrying a captured failure; if it exited with code 1, then the error
stream holds exactly the first failing item's exception message (items
checked before it were clean), the offending stage was never left, and no
item of any later stage was enqueued; and nothing is ever written to the
error stream except on that failing path. -/
theorem exit_contract (P : Prog) (s : Sys) (hs : Reachable P s) :
    (s.ph = .exited 0 ↔
      s.sIdx = P.length
        ∧ ∀ i, ∀ id ∈ idsOf P i, excLookup s.excs id = none)
      ∧ (s.ph = .exited 1 →
          ∃ pre id rem msg, idsOf P s.sIdx = pre ++ id :: rem
            ∧ (∀ id' ∈ pre, excLookup s.excs id' = none)
            ∧ excLookup s.excs id = some msg
            ∧ s.errLines = [msg]
            ∧ s.sIdx < P.length
            ∧ ∀ id', Ev.put id' ∈ s.trace → id'.1 ≤ s.sIdx)
      ∧ (s.ph ≠ .exited 1 → s.errLines = []) := by
  have h := inv_reach P s hs
  refine ⟨⟨?_, ?_⟩, ?_, h.err_clean⟩
  · intro h0
    rcases h.ph_exited0 0 h0 with ⟨_, hEq⟩ | hc
    · refine ⟨hEq, ?_⟩
      intro i id hmem
      by_cases hi : i < P.length
      · exact h.prev_clean i id (by omega) hmem
      · exfalso
        have hb : id.2 < (P.getD i []).length := ((mem_idsOf P i id).mp hmem).2
        have hnil : P.getD i [] = [] :=
          List.getD_eq_default _ _ (by omega)
        rw [hnil] at hb
        exact absurd hb (by simp)
    · exact absurd hc (by decide)
  · rintro ⟨hEq, _⟩
    cases hph : s.ph with
    | putting rem =>
      have := h.ph_putting_lt rem hph
      omega
    | joining =>
      have := h.ph_joining_lt hph
      omega
    | checking rem =>
      have := h.ph_checking_lt rem hph
      omega
    | exited c =>
      rcases h.ph_exited0 c hph with ⟨hc0, _⟩ | hc1
      · rw [hc0]
      · rw [hc1] at hph
        have := h.ph_exited1_lt hph
        omega
  · intro h1
    obtain ⟨pre, id, rem, msg, hsplit, hpre, hexc, herr⟩ := h.err_exit1 h1
    exact ⟨pre, id, rem, msg, hsplit, hpre, hexc, herr,
      h.ph_exited1_lt h1, fun id' hput => h.put_stage id' hput⟩

/-- A clean one-stage script. -/
def progClean : Prog := [[[none]]]

/-- Schedule driving `progClean` to the normal end of the script. -/
def schedClean : List Choice :=
  [.main, .main, .work false, .work false, .work false, .main, .main, .main]

/-- Witness for claim C8 (amended) at a concrete clean run that exits 0. -/
theorem exit_contract_spot :
    excLookup (runC progClean schedClean).excs (0, 0) = none :=
  ((exit_contract progClean (runC progClean schedClean)
    ⟨schedClean, rfl⟩).1.mp (by decide)).2 0 (0, 0) (by decide)

/-- Two stages; the only work function of stage 0's item raises
`Exception("boom")`. -/
def progFailing : Prog := [[[some "boom"]], [[none]]]

/-- Schedule driving `progFailing` through the stage-0 failure to the
orchestrator's check and process exit. -/
def schedFailing : List Choice :=
  [.main, .main, .work false, .work false, .main, .main]

/-- Counterexample to claim C8: in the failing run the process does exit
non-zero after reporting the failure, but the entire error stream is
exactly the failure message `"boom"`; the offending stage index is printed
only to standard output (the per-stage banner), never to the error stream,
and the trace shows no stage-1 item was enqueued. -/
theorem exit_stage_index_not_on_stderr :
    (runC progFailing schedFailing).ph = .exited 1
      ∧ (runC progFailing schedFailing).errLines = ["boom"]
      ∧ (runC progFailing schedFailing).outLines = [banner 0 2]
      ∧ (∀ l ∈ (runC progFailing schedFailing).errLines, l = "boom")
      ∧ "boom" ≠ banner 0 2
      ∧ "boom" ≠ "0"
      ∧ (runC progFailing schedFailing).trace
          = [Ev.put (0, 0), Ev.start (0, 0), Ev.op (0, 0) 0,
             Ev.done (0, 0)] := by
  decide

end Dolt
